import Mathlib

/-!
Verification development for the aio-rom asynchronous Redis object mapper.

The Python sources are shallowly embedded: Redis is modelled as an explicit
finite key space, every persistence operation is a pure function from store to
store (or to `Except` when the Python code can raise), and the JSON scalar
codec used by `aio_rom/fields.py` (`json.dumps` / `json.loads`) is modelled
concretely on character lists.  Python `float` values are modelled as exact
decimal rationals `m / 10 ^ k` together with the special values `inf`, `-inf`
and `nan`; every finite IEEE binary64 value is such a rational, and for these
values the exact-decimal rendering round-trips through parsing exactly as
CPython's shortest-repr rendering does, so the model is adequate for the
round-trip properties considered here.
-/

namespace AioRom

/-! ## Characters and decimal digits -/

/-- Is `c` one of the ASCII digits `'0'`–`'9'`? -/
def isDigitChar (c : Char) : Bool := '0' ≤ c && c ≤ '9'

/-- Numeric value of a digit character. -/
def charVal (c : Char) : Nat := c.toNat - '0'.toNat

/-- Digit character for a value below 10. -/
def digitChar (d : Nat) : Char := Char.ofNat (d + '0'.toNat)

/-- Value of a digit string read most-significant first, as `foldl`. -/
def valDigits (l : List Char) : Nat := l.foldl (fun a c => 10 * a + charVal c) 0

/-- All characters are decimal digits. -/
def allDigits (l : List Char) : Bool := l.all isDigitChar

/-- Decimal digits of `n`, most significant first; `fuel` bounds the recursion
(`fuel = n` always suffices). Mirrors the digit loop of a decimal printer. -/
def natCharsAux : Nat → Nat → List Char
  | 0, _ => []
  | fuel + 1, n =>
    if n = 0 then [] else natCharsAux fuel (n / 10) ++ [digitChar (n % 10)]

/-- Decimal rendering of a natural number, as `json.dumps` renders it. -/
def natChars (n : Nat) : List Char := if n = 0 then ['0'] else natCharsAux n n

/-- Decimal rendering of an integer with optional leading minus sign. -/
def intChars (i : Int) : List Char :=
  if i < 0 then '-' :: natChars i.natAbs else natChars i.toNat

theorem digitChar_isDigit : ∀ d, d < 10 → isDigitChar (digitChar d) = true := by
  decide

theorem charVal_digitChar : ∀ d, d < 10 → charVal (digitChar d) = d := by
  decide

theorem valDigits_nil : valDigits [] = 0 := rfl

theorem foldl_val_shift (B : List Char) (a : Nat) :
    B.foldl (fun x c => 10 * x + charVal c) a =
      a * 10 ^ B.length + valDigits B := by
  induction B generalizing a with
  | nil => simp [valDigits]
  | cons c B ih =>
    have h1 : valDigits (c :: B) = charVal c * 10 ^ B.length + valDigits B := by
      conv_lhs => unfold valDigits
      simp only [List.foldl_cons]
      rw [ih (10 * 0 + charVal c)]
      ring
    simp only [List.foldl_cons, List.length_cons, h1]
    rw [ih (10 * a + charVal c)]
    ring

theorem valDigits_append (A B : List Char) :
    valDigits (A ++ B) = valDigits A * 10 ^ B.length + valDigits B := by
  unfold valDigits
  rw [List.foldl_append, foldl_val_shift]
  rfl

theorem valDigits_singleton (c : Char) : valDigits [c] = charVal c := by
  simp [valDigits]

theorem allDigits_append (A B : List Char) :
    allDigits (A ++ B) = (allDigits A && allDigits B) := by
  simp [allDigits]

theorem natCharsAux_spec :
    ∀ fuel n, n ≤ fuel →
      valDigits (natCharsAux fuel n) = n ∧ allDigits (natCharsAux fuel n) = true := by
  intro fuel
  induction fuel with
  | zero =>
    intro n hn
    interval_cases n
    exact ⟨rfl, rfl⟩
  | succ fuel ih =>
    intro n hn
    by_cases h0 : n = 0
    · subst h0
      simp [natCharsAux, valDigits, allDigits]
    · have hdiv : n / 10 ≤ fuel := by
        have := Nat.div_lt_self (Nat.pos_of_ne_zero h0) (by norm_num : 1 < 10)
        omega
      obtain ⟨hv, hd⟩ := ih (n / 10) hdiv
      constructor
      · rw [natCharsAux, if_neg h0, valDigits_append, hv, valDigits_singleton,
          charVal_digitChar (n % 10) (Nat.mod_lt n (by norm_num))]
        simp
        omega
      · rw [natCharsAux, if_neg h0, allDigits_append, hd]
        simp [allDigits, digitChar_isDigit (n % 10) (Nat.mod_lt n (by norm_num))]

theorem valDigits_natChars (n : Nat) : valDigits (natChars n) = n := by
  unfold natChars
  by_cases h : n = 0
  · subst h; decide
  · rw [if_neg h]
    exact (natCharsAux_spec n n le_rfl).1

theorem allDigits_natChars (n : Nat) : allDigits (natChars n) = true := by
  unfold natChars
  by_cases h : n = 0
  · subst h; decide
  · rw [if_neg h]
    exact (natCharsAux_spec n n le_rfl).2

theorem natChars_ne_nil (n : Nat) : natChars n ≠ [] := by
  unfold natChars
  by_cases h : n = 0
  · subst h; simp
  · rw [if_neg h]
    intro hc
    have := (natCharsAux_spec n n le_rfl).1
    rw [hc] at this
    simp [valDigits] at this
    exact h this.symm

theorem valDigits_replicate_zero (z : Nat) (B : List Char) :
    valDigits (List.replicate z '0' ++ B) = valDigits B := by
  rw [valDigits_append]
  have : valDigits (List.replicate z '0') = 0 := by
    induction z with
    | zero => rfl
    | succ z ih =>
      rw [List.replicate_succ, valDigits, List.foldl_cons]
      have : (10 * 0 + charVal '0') = 0 := by decide
      rw [this]
      exact ih
  rw [this]
  simp

theorem allDigits_replicate_zero (z : Nat) :
    allDigits (List.replicate z '0') = true := by
  induction z with
  | zero => rfl
  | succ z ih =>
    rw [List.replicate_succ]
    unfold allDigits at ih ⊢
    rw [List.all_cons, ih]
    decide

/-! ## Python scalar values

`PyFloat` models Python `float`: finite values are exact decimal rationals
`m / 10 ^ k` (every finite binary64 value is of this form), plus the three
special values.  `PyVal` models the scalar values accepted by the
`serialize` singledispatch of `aio_rom/fields.py` (str, int, float, bool and
None). -/

inductive PyFloat where
  | finite (m : Int) (k : Nat)
  | inf
  | ninf
  | nan
  deriving DecidableEq, Repr

/-- Python float equality (`==`): value comparison for finite values,
`inf == inf`, `-inf == -inf`, and `nan` unequal to everything, itself
included. -/
def pyFloatBeq : PyFloat → PyFloat → Bool
  | .finite m1 k1, .finite m2 k2 => m1 * 10 ^ k2 == m2 * 10 ^ k1
  | .inf, .inf => true
  | .ninf, .ninf => true
  | _, _ => false

inductive PyVal where
  | pstr (s : String)
  | pint (n : Int)
  | pbool (b : Bool)
  | pfloat (f : PyFloat)
  | pnone
  deriving DecidableEq, Repr

/-- Numeric value of a Python scalar, when it has one (`bool` is a subtype of
`int` in Python, so `True == 1`). -/
def numRep : PyVal → Option PyFloat
  | .pint n => some (.finite n 0)
  | .pbool b => some (.finite (if b then 1 else 0) 0)
  | .pfloat f => some f
  | _ => none

/-- Python `==` on the scalars of interest. -/
def pyEq (a b : PyVal) : Bool :=
  match a, b with
  | .pstr s, .pstr t => s == t
  | .pnone, .pnone => true
  | a, b =>
    match numRep a, numRep b with
    | some x, some y => pyFloatBeq x y
    | _, _ => false

/-! ## The JSON scalar codec of `aio_rom/fields.py`

`serialize` (fields.py lines 108–123): `int`/`float`/`bool` go through
`json.dumps`, `str` and `None` pass through unchanged.  `json.dumps` renders
ints in decimal, bools as `true`/`false`, floats as a decimal with a decimal
point (or `NaN`/`Infinity`/`-Infinity`); the model renders the exact decimal
expansion, which `json.loads` recovers exactly, just as CPython's
shortest-round-trip repr is recovered exactly. -/

/-- Decimal rendering of the finite float `m / 10 ^ k`: the digit string of
`|m| * 10 ^ (max k 1 - k)` padded with leading zeros, with a decimal point
placed `max k 1` digits from the right and an optional minus sign. -/
def floatChars : PyFloat → List Char
  | .inf => "Infinity".data
  | .ninf => "-Infinity".data
  | .nan => "NaN".data
  | .finite m k =>
    let kk := max k 1
    let n := m.natAbs * 10 ^ (kk - k)
    let base := natChars n
    let ds := List.replicate (kk + 1 - base.length) '0' ++ base
    (if m < 0 then ['-'] else []) ++
      ds.take (ds.length - kk) ++ '.' :: ds.drop (ds.length - kk)

/-- `serialize` of fields.py on scalars: `Optional[str]` result, `None` maps
to `None` (no stored form). -/
def serializeScalar : PyVal → Option (List Char)
  | .pstr s => some s.data
  | .pint n => some (intChars n)
  | .pbool b => some (if b then "true".data else "false".data)
  | .pfloat f => some (floatChars f)
  | .pnone => none

/-- Parse an unsigned JSON number: digits, optionally followed by a decimal
point and fractional digits. -/
def parseUnsignedNum (l : List Char) : Option PyVal :=
  let ip := l.takeWhile (fun c => c != '.')
  match l.dropWhile (fun c => c != '.') with
  | [] =>
    if ip ≠ [] ∧ allDigits ip then some (.pint (valDigits ip : Nat)) else none
  | _ :: frac =>
    if ip ≠ [] ∧ allDigits ip ∧ frac ≠ [] ∧ allDigits frac then
      some (.pfloat (.finite
        ((valDigits ip * 10 ^ frac.length + valDigits frac : Nat) : Int)
        frac.length))
    else none

/-- Python unary minus on a parsed JSON number. -/
def pyNeg : PyVal → PyVal
  | .pint n => .pint (-n)
  | .pfloat (.finite m k) => .pfloat (.finite (-m) k)
  | v => v

/-- Model of `json.loads` restricted to scalar documents, as produced by
`json.dumps` on int/float/bool: literals first, then an optionally signed
number.  Numbers with a decimal point parse to floats, others to ints. -/
def jsonLoads (l : List Char) : Option PyVal :=
  if l = "true".data then some (.pbool true)
  else if l = "false".data then some (.pbool false)
  else if l = "null".data then some .pnone
  else if l = "NaN".data then some (.pfloat .nan)
  else if l = "Infinity".data then some (.pfloat .inf)
  else if l = "-Infinity".data then some (.pfloat .ninf)
  else if l.head? = some '-' then (parseUnsignedNum l.tail).map pyNeg
  else parseUnsignedNum l

/-- The supported declared scalar field types. -/
inductive ScalarTy where
  | tstr
  | tint
  | tfloat
  | tbool
  deriving DecidableEq, Repr

/-- Does the value belong to the declared scalar type? -/
def wellTyped : ScalarTy → PyVal → Bool
  | .tstr, .pstr _ => true
  | .tint, .pint _ => true
  | .tfloat, .pfloat _ => true
  | .tbool, .pbool _ => true
  | _, _ => false

/-- `field_deserializer` of fields.py (lines 154–211) on scalar fields: a
`str`-typed field passes the stored text through unchanged, every other
scalar type goes through `json.loads`. -/
def deserializeScalar (t : ScalarTy) (l : List Char) : Option PyVal :=
  match t with
  | .tstr => some (.pstr (String.mk l))
  | _ => jsonLoads l

example : jsonLoads (intChars 123) = some (.pint 123) := by decide
example : jsonLoads (intChars (-45)) = some (.pint (-45)) := by decide
example : jsonLoads (floatChars (.finite 15 1)) = some (.pfloat (.finite 15 1)) := by decide
example : jsonLoads (floatChars (.finite 3 0)) = some (.pfloat (.finite 30 1)) := by decide
example : jsonLoads (floatChars (.finite (-3) 2)) = some (.pfloat (.finite (-3) 2)) := by decide
example : pyFloatBeq (.finite 30 1) (.finite 3 0) = true := by decide
example : jsonLoads (floatChars .nan) = some (.pfloat .nan) := by decide
example : pyFloatBeq .nan .nan = false := by decide

/-! ## Round-trip lemmas for the scalar codec -/

/-- Characters that can occur in a rendered JSON number. -/
def numLike (l : List Char) : Bool :=
  l.all (fun c => isDigitChar c || c == '-' || c == '.')

theorem digit_ne_dot {c : Char} (h : isDigitChar c = true) : (c != '.') = true := by
  by_contra hb
  simp only [bne_iff_ne, ne_eq, not_not] at hb
  subst hb
  exact absurd h (by decide)

theorem digit_ne_dash {c : Char} (h : isDigitChar c = true) : c ≠ '-' := by
  intro hb
  subst hb
  exact absurd h (by decide)

theorem allDigits_forall {l : List Char} (h : allDigits l = true) :
    ∀ c ∈ l, isDigitChar c = true := by
  simpa [allDigits, List.all_eq_true] using h

theorem numLike_of_allDigits {l : List Char} (h : allDigits l = true) :
    numLike l = true := by
  simp only [numLike, List.all_eq_true]
  intro c hc
  simp [allDigits_forall h c hc]

theorem head_ne_dash_of_digits {l : List Char} (h : allDigits l = true) :
    l.head? ≠ some '-' := by
  cases l with
  | nil => simp
  | cons c cs =>
    intro hsome
    have hc : c = '-' := by simpa using hsome
    exact digit_ne_dash (allDigits_forall h c (List.mem_cons_self c cs)) hc

theorem takeWhile_append_cons {p : Char → Bool} {A B : List Char} {x : Char}
    (hA : ∀ c ∈ A, p c = true) (hx : p x = false) :
    (A ++ x :: B).takeWhile p = A ∧ (A ++ x :: B).dropWhile p = x :: B := by
  induction A with
  | nil => simp [List.takeWhile_cons, List.dropWhile_cons, hx]
  | cons a A ih =>
    have ha : p a = true := hA a (List.mem_cons_self a A)
    have hA' : ∀ c ∈ A, p c = true := fun c hc => hA c (List.mem_cons_of_mem a hc)
    obtain ⟨h1, h2⟩ := ih hA'
    simp [List.takeWhile_cons, List.dropWhile_cons, ha, h1, h2]

theorem takeWhile_all {p : Char → Bool} {l : List Char}
    (hl : ∀ c ∈ l, p c = true) :
    l.takeWhile p = l ∧ l.dropWhile p = [] := by
  induction l with
  | nil => simp
  | cons a l ih =>
    have ha : p a = true := hl a (List.mem_cons_self a l)
    have hl' : ∀ c ∈ l, p c = true := fun c hc => hl c (List.mem_cons_of_mem a hc)
    obtain ⟨h1, h2⟩ := ih hl'
    simp [List.takeWhile_cons, List.dropWhile_cons, ha, h1, h2]

theorem jsonLoads_of_numLike {l : List Char} (h : numLike l = true) :
    jsonLoads l =
      if l.head? = some '-' then (parseUnsignedNum l.tail).map pyNeg
      else parseUnsignedNum l := by
  have h1 : l ≠ "true".data := fun he => by rw [he] at h; exact absurd h (by decide)
  have h2 : l ≠ "false".data := fun he => by rw [he] at h; exact absurd h (by decide)
  have h3 : l ≠ "null".data := fun he => by rw [he] at h; exact absurd h (by decide)
  have h4 : l ≠ "NaN".data := fun he => by rw [he] at h; exact absurd h (by decide)
  have h5 : l ≠ "Infinity".data := fun he => by
    rw [he] at h; exact absurd h (by decide)
  have h6 : l ≠ "-Infinity".data := fun he => by
    rw [he] at h; exact absurd h (by decide)
  simp only [jsonLoads, if_neg h1, if_neg h2, if_neg h3, if_neg h4, if_neg h5,
    if_neg h6]

theorem parseUnsignedNum_digits {l : List Char} (hne : l ≠ [])
    (hd : allDigits l = true) :
    parseUnsignedNum l = some (.pint (valDigits l : Nat)) := by
  have hall : ∀ c ∈ l, (c != '.') = true :=
    fun c hc => digit_ne_dot (allDigits_forall hd c hc)
  obtain ⟨ht, hdr⟩ := takeWhile_all hall
  simp only [parseUnsignedNum, ht, hdr]
  rw [if_pos ⟨hne, hd⟩]

theorem parseUnsignedNum_split {A B : List Char} (hA : A ≠ [])
    (hAd : allDigits A = true) (hB : B ≠ []) (hBd : allDigits B = true) :
    parseUnsignedNum (A ++ '.' :: B) =
      some (.pfloat (.finite
        ((valDigits A * 10 ^ B.length + valDigits B : Nat) : Int) B.length)) := by
  have hall : ∀ c ∈ A, (c != '.') = true :=
    fun c hc => digit_ne_dot (allDigits_forall hAd c hc)
  obtain ⟨ht, hdr⟩ :=
    @takeWhile_append_cons (fun c => c != '.') A B '.' hall (by decide)
  simp only [parseUnsignedNum, ht, hdr]
  rw [if_pos ⟨hA, hAd, hB, hBd⟩]

theorem numLike_intChars (i : Int) : numLike (intChars i) = true := by
  unfold intChars
  by_cases h : i < 0
  · rw [if_pos h]
    have hrest := numLike_of_allDigits (allDigits_natChars i.natAbs)
    unfold numLike at hrest ⊢
    rw [List.all_cons, hrest]
    decide
  · rw [if_neg h]
    exact numLike_of_allDigits (allDigits_natChars i.toNat)

theorem jsonLoads_intChars (i : Int) : jsonLoads (intChars i) = some (.pint i) := by
  rw [jsonLoads_of_numLike (numLike_intChars i)]
  by_cases h : i < 0
  · have hic : intChars i = '-' :: natChars i.natAbs := by
      unfold intChars; rw [if_pos h]
    rw [hic, if_pos (show ('-' :: natChars i.natAbs).head? = some '-' from rfl)]
    simp only [List.tail_cons]
    rw [parseUnsignedNum_digits (natChars_ne_nil _) (allDigits_natChars _),
      valDigits_natChars]
    show some (pyNeg (.pint (i.natAbs : Int))) = some (.pint i)
    simp only [pyNeg, Option.some.injEq, PyVal.pint.injEq]
    omega
  · have hic : intChars i = natChars i.toNat := by
      unfold intChars; rw [if_neg h]
    rw [hic, if_neg (head_ne_dash_of_digits (allDigits_natChars _)),
      parseUnsignedNum_digits (natChars_ne_nil _) (allDigits_natChars _),
      valDigits_natChars]
    simp only [Option.some.injEq, PyVal.pint.injEq]
    omega

theorem floatChars_finite_parse (m : Int) (k : Nat) :
    jsonLoads (floatChars (.finite m k)) =
      some (.pfloat (.finite (m * 10 ^ (max k 1 - k)) (max k 1))) := by
  have hk1 : 1 ≤ max k 1 := le_max_right k 1
  have hkk : k ≤ max k 1 := le_max_left k 1
  set kk := max k 1 with hkkdef
  set n := m.natAbs * 10 ^ (kk - k) with hndef
  set base := natChars n with hbase
  set ds := List.replicate (kk + 1 - base.length) '0' ++ base with hds
  have hds_digits : allDigits ds = true := by
    rw [hds, allDigits_append, allDigits_replicate_zero, hbase, allDigits_natChars]
    rfl
  have hds_val : valDigits ds = n := by
    rw [hds, valDigits_replicate_zero, hbase, valDigits_natChars]
  have hLen : kk + 1 ≤ ds.length := by
    rw [hds, List.length_append, List.length_replicate]
    omega
  set ipt := ds.take (ds.length - kk) with hipt
  set fr := ds.drop (ds.length - kk) with hfr
  have hsplit : ipt ++ fr = ds := List.take_append_drop _ _
  have hipt_len : ipt.length = ds.length - kk := by
    rw [hipt, List.length_take]
    omega
  have hfr_len : fr.length = kk := by
    rw [hfr, List.length_drop]
    omega
  have hipt_ne : ipt ≠ [] := by
    intro hc
    rw [hc] at hipt_len
    simp at hipt_len
    omega
  have hfr_ne : fr ≠ [] := by
    intro hc
    rw [hc] at hfr_len
    simp at hfr_len
    omega
  have hboth : allDigits ipt = true ∧ allDigits fr = true := by
    have := hds_digits
    rw [← hsplit, allDigits_append, Bool.and_eq_true] at this
    exact this
  have hcomb : valDigits ipt * 10 ^ fr.length + valDigits fr = n := by
    rw [← valDigits_append, hsplit, hds_val]
  have hparse : parseUnsignedNum (ipt ++ '.' :: fr) =
      some (.pfloat (.finite (n : Int) fr.length)) := by
    rw [parseUnsignedNum_split hipt_ne hboth.1 hfr_ne hboth.2, hcomb]
  have hrender : floatChars (.finite m k) =
      (if m < 0 then ['-'] else []) ++ ipt ++ '.' :: fr := by
    show (if m < 0 then ['-'] else []) ++
        ds.take (ds.length - kk) ++ '.' :: ds.drop (ds.length - kk) =
      (if m < 0 then ['-'] else []) ++ ipt ++ '.' :: fr
    rw [← hipt, ← hfr]
  have hnumlike : numLike (floatChars (.finite m k)) = true := by
    rw [hrender]
    unfold numLike
    simp only [List.all_append, List.all_cons, Bool.and_eq_true]
    refine ⟨⟨?_, ?_⟩, by decide, ?_⟩
    · by_cases hm : m < 0 <;> simp [hm]
    · have := numLike_of_allDigits hboth.1
      simpa [numLike] using this
    · have := numLike_of_allDigits hboth.2
      simpa [numLike] using this
  rw [jsonLoads_of_numLike hnumlike, hrender]
  by_cases hm : m < 0
  · rw [if_pos hm]
    simp only [List.cons_append, List.nil_append]
    rw [if_pos (show ('-' :: (ipt ++ '.' :: fr)).head? = some '-' from rfl)]
    simp only [List.tail_cons]
    rw [hparse]
    show some (pyNeg (.pfloat (.finite (n : Int) fr.length))) = _
    simp only [pyNeg, Option.some.injEq, PyVal.pfloat.injEq, PyFloat.finite.injEq]
    constructor
    · rw [hndef]
      push_cast
      rw [abs_of_neg hm]
      ring
    · rw [hfr_len]
  · rw [if_neg hm]
    simp only [List.nil_append]
    have hhead : (ipt ++ '.' :: fr).head? ≠ some '-' := by
      cases hip : ipt with
      | nil => exact absurd hip hipt_ne
      | cons c cs =>
        have hcd : isDigitChar c = true := by
          apply allDigits_forall hboth.1
          rw [hip]
          exact List.mem_cons_self c cs
        simp only [List.cons_append, List.head?_cons]
        intro hsome
        exact digit_ne_dash hcd (by simpa using hsome)
    rw [if_neg hhead, hparse]
    simp only [Option.some.injEq, PyVal.pfloat.injEq, PyFloat.finite.injEq]
    constructor
    · rw [hndef]
      push_cast
      rw [abs_of_nonneg (by omega : (0 : Int) ≤ m)]
    · rw [hfr_len]

theorem pyFloatBeq_parse_orig (m : Int) (k : Nat) :
    pyFloatBeq (.finite (m * 10 ^ (max k 1 - k)) (max k 1)) (.finite m k) = true := by
  have hkk : k ≤ max k 1 := le_max_left k 1
  simp only [pyFloatBeq, beq_iff_eq]
  rw [mul_assoc, ← pow_add]
  congr 2
  omega

/-- The round-trip property claimed by the spec for a declared scalar type and
a value of that type: serializing and deserializing at that type succeeds and
yields a Python-equal (`==`) value. -/
def roundTrips (t : ScalarTy) (v : PyVal) : Prop :=
  ∃ s w, serializeScalar v = some s ∧ deserializeScalar t s = some w ∧
    pyEq w v = true

/-- C1 counterexample: `float('nan')` is a value of the supported scalar type
`float`, `json.dumps` stores it as `NaN` and `json.loads` recovers a NaN, but
`nan == nan` is false in Python, so `deserialize(float, serialize(nan)) == nan`
fails.  The round-trip claim is therefore false as stated. -/
theorem c1_nan_refutes_roundtrip :
    wellTyped .tfloat (.pfloat .nan) = true ∧
      ¬ roundTrips .tfloat (.pfloat .nan) := by
  refine ⟨rfl, ?_⟩
  rintro ⟨s, w, h1, h2, h3⟩
  have hs : s = "NaN".data := by
    simpa [serializeScalar, floatChars] using h1.symm
  subst hs
  have hw : w = .pfloat .nan := by
    simpa [deserializeScalar, jsonLoads] using h2.symm
  subst hw
  exact absurd h3 (by decide)

/-- C1 (amended): for every supported scalar type T (str, int, float, bool)
and every value v of type T other than the float NaN,
`deserialize(T, serialize(v)) == v`.  (NaN is excluded because `nan != nan`;
the infinities and all finite floats do round-trip.) -/
theorem c1_roundtrip_amended (t : ScalarTy) (v : PyVal)
    (hw : wellTyped t v = true) (hn : v ≠ .pfloat .nan) : roundTrips t v := by
  cases t with
  | tstr =>
    cases v with
    | pstr s =>
      exact ⟨s.data, .pstr s, rfl, rfl, by simp [pyEq]⟩
    | pint n => exact absurd hw (by simp [wellTyped])
    | pbool b => exact absurd hw (by simp [wellTyped])
    | pfloat f => exact absurd hw (by simp [wellTyped])
    | pnone => exact absurd hw (by simp [wellTyped])
  | tint =>
    cases v with
    | pint n =>
      refine ⟨intChars n, .pint n, rfl, ?_, ?_⟩
      · show jsonLoads (intChars n) = some (.pint n)
        exact jsonLoads_intChars n
      · simp [pyEq, numRep, pyFloatBeq]
    | pstr s => exact absurd hw (by simp [wellTyped])
    | pbool b => exact absurd hw (by simp [wellTyped])
    | pfloat f => exact absurd hw (by simp [wellTyped])
    | pnone => exact absurd hw (by simp [wellTyped])
  | tbool =>
    cases v with
    | pbool b =>
      cases b
      · exact ⟨"false".data, .pbool false, rfl, by decide, by decide⟩
      · exact ⟨"true".data, .pbool true, rfl, by decide, by decide⟩
    | pstr s => exact absurd hw (by simp [wellTyped])
    | pint n => exact absurd hw (by simp [wellTyped])
    | pfloat f => exact absurd hw (by simp [wellTyped])
    | pnone => exact absurd hw (by simp [wellTyped])
  | tfloat =>
    cases v with
    | pfloat f =>
      cases f with
      | finite m k =>
        refine ⟨floatChars (.finite m k),
          .pfloat (.finite (m * 10 ^ (max k 1 - k)) (max k 1)), rfl, ?_, ?_⟩
        · show jsonLoads (floatChars (.finite m k)) = _
          exact floatChars_finite_parse m k
        · simp only [pyEq, numRep]
          exact pyFloatBeq_parse_orig m k
      | inf => exact ⟨"Infinity".data, .pfloat .inf, rfl, by decide, by decide⟩
      | ninf =>
        exact ⟨"-Infinity".data, .pfloat .ninf, rfl, by decide, by decide⟩
      | nan => exact absurd rfl hn
    | pstr s => exact absurd hw (by simp [wellTyped])
    | pint n => exact absurd hw (by simp [wellTyped])
    | pbool b => exact absurd hw (by simp [wellTyped])
    | pnone => exact absurd hw (by simp [wellTyped])

/-- Witness for `c1_roundtrip_amended` at a concrete input. -/
theorem c1_roundtrip_amended_witness :
    wellTyped .tint (.pint 123) = true ∧ .pint 123 ≠ PyVal.pfloat .nan ∧
      roundTrips .tint (.pint 123) :=
  ⟨by decide, by decide,
    c1_roundtrip_amended .tint (.pint 123) (by decide) (by decide)⟩

/-! ## Exceptions

`aio_rom/exception.py` defines `ORMException`, `ModelNotFoundException` and
`ModelNotLoadedException`.  `ModelDataclassType.__prepare__`
(`aio_rom/model.py` lines 37–47) seeds every model class namespace with a
fresh `NotFoundException` subclass of `ModelNotFoundException`; that per-class
subclass is modelled by tagging the error with the model class name.  The
Python builtins `TypeError`, `IndexError` and `AttributeError` and the redis
`WatchError` are also modelled as constructors. -/

/-- ASCII lowercasing of one character (`str.lower` on class names). -/
def lowerChar (c : Char) : Char :=
  if 'A' ≤ c && c ≤ 'Z' then Char.ofNat (c.toNat + 32) else c

/-- ASCII lowercasing of a string (`f"{cls.__name__.lower()}"`). -/
def lowerStr (s : String) : String := String.mk (s.data.map lowerChar)

/-- String prefix test, used to model `conn.keys(f"{key}:*")`. -/
def strHasPfx (pat s : String) : Bool := pat.data.isPrefixOf s.data

instance exceptDecEq {ε α : Type} [DecidableEq ε] [DecidableEq α] :
    DecidableEq (Except ε α)
  | .error e, .error e' =>
    match decEq e e' with
    | .isTrue h => .isTrue (h ▸ rfl)
    | .isFalse h => .isFalse (fun hc => h (Except.error.inj hc))
  | .error _, .ok _ => .isFalse (fun hc => Except.noConfusion hc)
  | .ok _, .error _ => .isFalse (fun hc => Except.noConfusion hc)
  | .ok a, .ok a' =>
    match decEq a a' with
    | .isTrue h => .isTrue (h ▸ rfl)
    | .isFalse h => .isFalse (fun hc => h (Except.ok.inj hc))

inductive ROMError where
  | notFound (modelName : String) (msg : String)
  | typeErr (msg : String)
  | notLoaded (msg : String)
  | indexErr
  | attrErr (msg : String)
  | watchErr
  deriving DecidableEq, Repr

/-- Is the error an instance of `ModelNotFoundException`? -/
def isModelNotFound : ROMError → Bool
  | .notFound _ _ => true
  | _ => false

/-! ## The Redis store model

One keyspace; each key holds a hash, a set or a list.  Sets are kept as
duplicate-free lists in insertion order. -/

/-- Lookup in an association list (first match). -/
def alookup {α : Type} : List (String × α) → String → Option α
  | [], _ => none
  | (k, v) :: t, key => if k = key then some v else alookup t key

/-- Insert-or-replace in an association list, keeping position. -/
def aset {α : Type} : List (String × α) → String → α → List (String × α)
  | [], k, v => [(k, v)]
  | (k', v') :: t, k, v =>
    if k' = k then (k, v) :: t else (k', v') :: aset t k v

theorem alookup_aset_self {α : Type} (l : List (String × α)) (k : String) (v : α) :
    alookup (aset l k v) k = some v := by
  induction l with
  | nil => simp [aset, alookup]
  | cons p t ih =>
    by_cases h : p.1 = k
    · simp [aset, h, alookup]
    · simp [aset, h, alookup, ih]

theorem alookup_aset_ne {α : Type} (l : List (String × α)) (k k' : String) (v : α)
    (h : k' ≠ k) : alookup (aset l k v) k' = alookup l k' := by
  induction l with
  | nil => simp [aset, alookup, Ne.symm h]
  | cons p t ih =>
    by_cases hp : p.1 = k
    · subst hp
      simp [aset, alookup, Ne.symm h]
    · simp only [aset, if_neg hp]
      by_cases hp' : p.1 = k'
      · simp [alookup, hp']
      · simp [alookup, hp', ih]

inductive Entry where
  | hash (h : List (String × String))
  | eset (s : List String)
  | elist (l : List String)
  deriving DecidableEq, Repr

structure RedisStore where
  entries : List (String × Entry)
  deriving DecidableEq, Repr

def emptyStore : RedisStore := ⟨[]⟩

def lookupKey (st : RedisStore) (k : String) : Option Entry :=
  alookup st.entries k

def setKey (st : RedisStore) (k : String) (e : Entry) : RedisStore :=
  ⟨aset st.entries k e⟩

/-- `hgetall`: the stored hash, or empty when the key is absent. -/
def hgetallKey (st : RedisStore) (k : String) : List (String × String) :=
  match lookupKey st k with
  | some (.hash h) => h
  | _ => []

/-- `smembers`: set members, or empty when the key is absent. -/
def smembersKey (st : RedisStore) (k : String) : List String :=
  match lookupKey st k with
  | some (.eset s) => s
  | _ => []

/-- `lrange key 0 -1`. -/
def lrangeKey (st : RedisStore) (k : String) : List String :=
  match lookupKey st k with
  | some (.elist l) => l
  | _ => []

/-- Members of a remote collection, whether it is a set or a list. -/
def collMembersKey (st : RedisStore) (k : String) : List String :=
  match lookupKey st k with
  | some (.eset s) => s
  | some (.elist l) => l
  | _ => []

/-- `hset`. -/
def hsetOp (st : RedisStore) (k f v : String) : RedisStore :=
  setKey st k (.hash (aset (hgetallKey st k) f v))

/-- `hmset`/`hmset_dict`: set each given hash field, keep the others. -/
def hmsetOp (st : RedisStore) (k : String)
    (fields : List (String × String)) : RedisStore :=
  fields.foldl (fun s kv => hsetOp s k kv.1 kv.2) st

/-- `sadd` of one member. -/
def saddOp (st : RedisStore) (k m : String) : RedisStore :=
  let s := smembersKey st k
  setKey st k (.eset (if m ∈ s then s else s ++ [m]))

/-- `sadd` of several members. -/
def saddAllOp (st : RedisStore) (k : String) (ms : List String) : RedisStore :=
  ms.foldl (fun s m => saddOp s k m) st

/-- `srem`: removing from an absent key is a no-op. -/
def sremOp (st : RedisStore) (k m : String) : RedisStore :=
  match lookupKey st k with
  | some (.eset s) => setKey st k (.eset (s.filter (fun x => x != m)))
  | _ => st

/-- `rpush` of several values. -/
def rpushOp (st : RedisStore) (k : String) (vs : List String) : RedisStore :=
  setKey st k (.elist (lrangeKey st k ++ vs))

/-- `delete` of several keys. -/
def delOp (st : RedisStore) (ks : List String) : RedisStore :=
  ⟨st.entries.filter (fun p => decide (p.1 ∉ ks))⟩

/-- `keys pattern:*`: all keys with the given string prefix. -/
def keysMatching (st : RedisStore) (pat : String) : List String :=
  (st.entries.map (fun p => p.1)).filter (fun k => strHasPfx pat k)

/-- Operations queueable on a transaction pipeline. -/
inductive StoreOp where
  | hmset (k : String) (fields : List (String × String))
  | hset (k f v : String)
  | sadd (k m : String)
  | saddAll (k : String) (ms : List String)
  | srem (k m : String)
  | rpush (k : String) (vs : List String)
  | delKeys (ks : List String)
  deriving DecidableEq, Repr

def applyOp (st : RedisStore) : StoreOp → RedisStore
  | .hmset k fields => hmsetOp st k fields
  | .hset k f v => hsetOp st k f v
  | .sadd k m => saddOp st k m
  | .saddAll k ms => saddAllOp st k ms
  | .srem k m => sremOp st k m
  | .rpush k vs => rpushOp st k vs
  | .delKeys ks => delOp st ks

def applyOps (ops : List StoreOp) (st : RedisStore) : RedisStore :=
  ops.foldl applyOp st

/-! ## Models and fields (`aio_rom/model.py`, `aio_rom/fields.py`)

A model class is its name plus an ordered list of field descriptors; the key
prefix is the lowercased class name and the primary key is `prefix:id`
(`Model.prefix`, `Model.db_id`).  Field kinds:

* `scalar t` — a plain scalar field of declared type `t`;
* `reference rname` — a field typed as another model class named `rname`
  (reference values carry the referenced instance's prefix, id and serialized
  hash; deserializing fetches the referenced hash one level deep, which is
  all the claims below need);
* `collection isSet` — a set/list of scalars, stored under `db_id:name`.

`optional` models `type(None) in get_args(field.type)`, `hasDefault` models
`has_default` (default or default factory present), and `defaultVal` the
default value used by `deserialize` for absent stored fields. -/

inductive FieldKind where
  | scalar (t : ScalarTy)
  | reference (rname : String)
  | collection (isSet : Bool)
  deriving DecidableEq, Repr

inductive Value where
  | scalar (v : PyVal)
  | ref (rPfx : String) (rId : String) (rHash : List (String × String))
  | coll (isSet : Bool) (items : List PyVal)
  deriving DecidableEq, Repr

structure FieldDesc where
  name : String
  transient : Bool
  cascade : Bool
  optional : Bool
  hasDefault : Bool
  defaultVal : Option Value
  kind : FieldKind
  deriving DecidableEq, Repr

structure ModelClass where
  name : String
  fields : List FieldDesc
  deriving DecidableEq, Repr

/-- `Model.prefix()`: the lowercased class name. -/
def ModelClass.keyPfx (c : ModelClass) : String := lowerStr c.name

/-- `{prefix}:{id}`. -/
def dbKey (c : ModelClass) (id : String) : String := c.keyPfx ++ ":" ++ id

structure ModelInst where
  cls : ModelClass
  id : String
  vals : List (String × Value)
  deriving DecidableEq, Repr

/-- `self.db_id`. -/
def ModelInst.dbId (m : ModelInst) : String := dbKey m.cls m.id

/-- `getattr(self, f.name)` on the embedded instance. -/
def ModelInst.attr (m : ModelInst) (nm : String) : Option Value :=
  alookup m.vals nm

/-- `isinstance(value, (Iterable, type(None))) and not value`: `None`, empty
strings and empty collections are falsy iterables; models and non-string
scalars are not iterable. -/
def pyFalsyIterable : Value → Bool
  | .scalar .pnone => true
  | .scalar (.pstr s) => s.isEmpty
  | .coll _ items => items.isEmpty
  | _ => false

/-- The serialized form of one field value as built inside
`Model._serialized_model`:

* a scalar goes through `serialize` (`json.dumps`, or pass-through for
  `str`/`None`), yielding an optional stored string;
* Modelled from the spec: the `serialize` dispatch arm for Model-typed
  values, absent from the `fields.py` snapshot in the repository, passes the
  referenced instance through so that the surrounding code can use its
  `save` coroutine and take `value.id` as the stored form ("A Model-typed
  value serializes to its key");
* a raw set/list value becomes a Redis collection object whose key is
  `{db_id}:{field_name}` (the `serialize` registrations for `Set` and
  `MutableSequence`). -/
inductive SerVal where
  | raw (s : Option String)
  | refObj (rPfx : String) (rId : String) (rHash : List (String × String))
  | collObj (isSet : Bool) (key : String) (items : List PyVal)
  deriving DecidableEq, Repr

def serializeField (dbId fname : String) (v : Value) : SerVal :=
  match v with
  | .scalar pv => .raw ((serializeScalar pv).map String.mk)
  | .ref p i h => .refObj p i h
  | .coll isSet items => .collObj isSet (dbId ++ ":" ++ fname) items

/-- Does the serialized value have a coroutine `save` attribute
(`iscoroutinefunction(getattr(value, "save", None))`)?  True for models and
Redis collection objects, false for stored scalars. -/
def hasSave : SerVal → Bool
  | .raw _ => false
  | _ => true

/-- Stored wire form of one scalar collection member. -/
def serMember (v : PyVal) : Option String := (serializeScalar v).map String.mk

/-- Queued operations of `Model.save` for a referenced model
(`tr.hmset_dict(db_id, dict)`, `tr.sadd(prefix, id)`), used when a cascade
field saves its nested model. -/
def refSaveOps (rPfx rId : String) (rHash : List (String × String)) :
    List StoreOp :=
  [.hmset (rPfx ++ ":" ++ rId) rHash, .sadd rPfx rId]

/-- Queued operations of the collection `save` of the era-matching
`attributes.py` (`src/src/rom/attributes.py` lines 87–95 and 111–119):
delete the key, then `sadd`/`rpush` the current members if any. -/
def collSaveOps (isSet : Bool) (key : String) (items : List PyVal) :
    List StoreOp :=
  .delKeys [key] ::
    (if items.isEmpty then []
     else [if isSet then .saddAll key (items.filterMap serMember)
           else .rpush key (items.filterMap serMember)])

/-- Nested `value.save(...)` gating of `_serialized_model` (model.py lines
199–206): saved when the serialized value has a `save` coroutine and the
field is cascade or the value is a `Collection` (collection objects are
Collections, models are not). -/
def nestedSaveOps (f : FieldDesc) (sv : SerVal) : List StoreOp :=
  match sv with
  | .raw _ => []
  | .refObj p i h => if f.cascade then refSaveOps p i h else []
  | .collObj isSet key items => collSaveOps isSet key items

/-- The hash entry contributed by one serialized field (the final dict
comprehension of `_serialized_model`): values with a `save` coroutine store
`getattr(value, "id", f"{db_id}:{field.name}")` — the bare id for models, the
collection key for collection objects (which have no `id` attribute) — plain
values store themselves, and `None` scalars are dropped. -/
def dictEntry (f : FieldDesc) (sv : SerVal) :
    Option (String × String) :=
  match sv with
  | .raw none => none
  | .raw (some s) => some (f.name, s)
  | .refObj _ i _ => some (f.name, i)
  | .collObj _ key _ => some (f.name, key)

/-- Field selection of `_serialized_model` (model.py lines 176–189): keep
non-transient fields the instance has a value for, restricted to the changed
names when `changes` is non-empty; take the changed value when given; with a
declared default, skip values that are falsy iterables or `None`. -/
def selectedFields (m : ModelInst) (changes : List (String × Value)) :
    List (FieldDesc × Value) :=
  m.cls.fields.filterMap (fun f =>
    if f.transient then none
    else if !changes.isEmpty && (alookup changes f.name).isNone then none
    else
      match (alookup changes f.name).orElse (fun _ => m.attr f.name) with
      | none => none
      | some v =>
        if f.hasDefault && pyFalsyIterable v then none else some (f, v))

/-- `_serialized_model`: the hash dict to store and the operations queued by
nested saves, in field order. -/
def serializedParts (m : ModelInst) (changes : List (String × Value)) :
    List (String × String) × List StoreOp :=
  let svs := (selectedFields m changes).map
    (fun fv => (fv.1, serializeField m.dbId fv.1.name fv.2))
  (svs.filterMap (fun fs => dictEntry fs.1 fs.2),
   (svs.map (fun fs => nestedSaveOps fs.1 fs.2)).flatten)

/-- Operations queued by `Model.save` (model.py lines 156–160): nested saves,
then `hmset_dict(db_id, dict)` and `sadd(prefix, id)`. -/
def modelSaveOps (m : ModelInst) : List StoreOp :=
  let parts := serializedParts m []
  parts.2 ++ [.hmset m.dbId parts.1, .sadd m.cls.keyPfx m.id]

def modelSave (m : ModelInst) (st : RedisStore) : RedisStore :=
  applyOps (modelSaveOps m) st

/-- Operations queued by `Model.update` (model.py lines 162–167): nested
saves, then one `hset(db_id, key, value)` per dict entry; no membership
`sadd`. -/
def modelUpdateOps (m : ModelInst) (changes : List (String × Value)) :
    List StoreOp :=
  let parts := serializedParts m changes
  parts.2 ++ parts.1.map (fun kv => .hset m.dbId kv.1 kv.2)

def modelUpdate (m : ModelInst) (changes : List (String × Value))
    (st : RedisStore) : RedisStore :=
  applyOps (modelUpdateOps m changes) st

/-- `Model.delete` (model.py lines 216–222): list the keys under
`{db_id}:*`, delete them together with the primary key, and `srem` the
*primary key* (not the id) from the membership set. -/
def modelDelete (m : ModelInst) (st : RedisStore) : RedisStore :=
  let nested := keysMatching st (m.dbId ++ ":")
  applyOps [.delKeys (nested ++ [m.dbId]), .srem m.cls.keyPfx m.dbId] st

/-- Sequence a fallible computation over a list, stopping at the first
error (the behaviour of `asyncio.gather` over coroutines that may raise). -/
def exMapM {α β : Type} (g : α → Except ROMError β) :
    List α → Except ROMError (List β)
  | [] => .ok []
  | a :: l =>
    match g a with
    | .error e => .error e
    | .ok b =>
      match exMapM g l with
      | .error e => .error e
      | .ok bs => .ok (b :: bs)

/-- Parse every stored collection member with `json.loads`. -/
def jsonLoadsAll : List String → Option (List PyVal)
  | [] => some []
  | s :: l =>
    match jsonLoads s.data with
    | none => none
    | some v =>
      match jsonLoadsAll l with
      | none => none
      | some vs => some (v :: vs)

/-- `deserialize`/`field_deserializer` for one stored field (fields.py lines
85–101 and 154–211).  An absent stored value yields `None` for optional
fields, the declared default when one exists, and otherwise falls through to
`json.loads(None)`, a `TypeError`.  A present value parses as a scalar, or
fetches the referenced hash, or loads the collection members from the
sub-key.  Reference deserialization is modelled one level deep. -/
def deserializeField (st : RedisStore) (f : FieldDesc) (stored : Option String) :
    Except ROMError Value :=
  match stored with
  | none =>
    if f.optional then .ok (.scalar .pnone)
    else if f.hasDefault then
      match f.defaultVal with
      | some d => .ok d
      | none => .error (.typeErr "missing default")
    else .error (.typeErr "the JSON object must be str, bytes or bytearray, not NoneType")
  | some s =>
    match f.kind with
    | .scalar t =>
      match deserializeScalar t s.data with
      | some v => .ok (.scalar v)
      | none => .error (.typeErr ("could not deserialize " ++ s))
    | .reference rname =>
      match hgetallKey st (lowerStr rname ++ ":" ++ s) with
      | [] => .error (.notFound rname (s ++ " not found"))
      | h => .ok (.ref (lowerStr rname) s h)
    | .collection isSet =>
      match jsonLoadsAll (collMembersKey st s) with
      | some vs => .ok (.coll isSet vs)
      | none => .error (.typeErr ("could not deserialize collection " ++ s))

/-- `Model.get` (model.py lines 83–100): `hgetall` the primary key, raise the
class's own `NotFoundException` when the hash is empty, otherwise deserialize
every non-transient field and build the instance. -/
def getModel (cls : ModelClass) (st : RedisStore) (id : String) :
    Except ROMError ModelInst :=
  if (hgetallKey st (dbKey cls id)).isEmpty then
    .error (.notFound cls.name (id ++ " not found"))
  else
    (exMapM
      (fun f => (deserializeField st f
          (alookup (hgetallKey st (dbKey cls id)) f.name)).map
        (fun v => (f.name, v)))
      (cls.fields.filter (fun f => !f.transient))).map
      (fun vals => ⟨cls, id, vals⟩)

/-- Truthiness of a model instance: dataclasses define neither `__bool__` nor
`__len__`, so every instance is truthy — which is why the orphan-warning
branch of `Model.scan` can never run. -/
def modelTruthy (_ : ModelInst) : Bool := true

/-- `Model.scan` (model.py lines 112–122): iterate the membership set with
de-duplication, `get` each key (an exception from `get` propagates out of the
iteration), yield truthy values, log-and-skip falsy ones. -/
def scanLoop (cls : ModelClass) (st : RedisStore) :
    List String → List String → List ModelInst →
    Except ROMError (List ModelInst)
  | [], _, acc => .ok acc
  | k :: ks, found, acc =>
    if k ∈ found then scanLoop cls st ks found acc
    else
      match getModel cls st k with
      | .error e => .error e
      | .ok v =>
        if modelTruthy v then scanLoop cls st ks (k :: found) (acc ++ [v])
        else scanLoop cls st ks found acc

def scanModel (cls : ModelClass) (st : RedisStore) :
    Except ROMError (List ModelInst) :=
  scanLoop cls st (smembersKey st cls.keyPfx) [] []

/-- `Model.all` (model.py lines 125–128): `smembers` the membership set and
`gather` a `get` per key; any failed `get` propagates. -/
def allModel (cls : ModelClass) (st : RedisStore) :
    Except ROMError (List ModelInst) :=
  exMapM (getModel cls st) (smembersKey st cls.keyPfx)

/-! ## Concrete fixtures

`ForTesting` mirrors the test model of `tests/test_model.py`: a string `id`
and an int field `f1`.  `OptTesting` has an `Optional[int]` field with
default `None`, as `field6` of the redis test model. -/

def idField : FieldDesc :=
  ⟨"id", false, false, false, false, none, .scalar .tstr⟩

def f1Field : FieldDesc :=
  ⟨"f1", false, false, false, false, none, .scalar .tint⟩

def forTestingCls : ModelClass := ⟨"ForTesting", [idField, f1Field]⟩

def ft123 : ModelInst :=
  ⟨forTestingCls, "123",
    [("id", .scalar (.pstr "123")), ("f1", .scalar (.pint 123))]⟩

def optField : FieldDesc :=
  ⟨"f1", false, false, true, true, some (.scalar .pnone), .scalar .tint⟩

def optTestingCls : ModelClass := ⟨"OptTesting", [idField, optField]⟩

def ot1 : ModelInst :=
  ⟨optTestingCls, "1",
    [("id", .scalar (.pstr "1")), ("f1", .scalar (.pint 5))]⟩

example :
    hgetallKey (modelSave ft123 emptyStore) "fortesting:123" =
      [("id", "123"), ("f1", "123")] := by decide

example :
    smembersKey (modelSave ft123 emptyStore) "fortesting" = ["123"] := by decide

example :
    getModel forTestingCls (modelSave ft123 emptyStore) "123" = .ok ft123 := by
  decide

/-! ## C3: `get` raises the per-class NotFoundException, all-or-exception -/

theorem exMapM_ok_shape {α β γ : Type} (g : α → Except ROMError β) (nm : α → γ) :
    ∀ (l : List α) (vals : List (γ × β)),
      exMapM (fun a => (g a).map (fun v => (nm a, v))) l = .ok vals →
      vals.map Prod.fst = l.map nm := by
  intro l
  induction l with
  | nil =>
    intro vals h
    simp only [exMapM] at h
    cases h
    rfl
  | cons a l ih =>
    intro vals h
    simp only [exMapM] at h
    cases hga : (g a).map (fun v => (nm a, v)) with
    | error e => rw [hga] at h; cases h
    | ok b =>
      rw [hga] at h
      cases hrec : exMapM (fun a => (g a).map (fun v => (nm a, v))) l with
      | error e => rw [hrec] at h; cases h
      | ok bs =>
        rw [hrec] at h
        cases h
        have hb : b.1 = nm a := by
          cases hge : g a with
          | error e => rw [hge] at hga; cases hga
          | ok v =>
            rw [hge] at hga
            cases hga
            rfl
        simp [hb, ih bs hrec]

/-- C3: for every model type and every id with no primary hash stored at
`{prefix}:{id}`, `get` raises the class's own `NotFoundException` — an
instance of `ModelNotFoundException` tagged with the model type, distinct
from any other model type's exception — and `get` is all-or-exception: a
successful `get` returns an instance with every non-transient field
populated from deserialization. -/
theorem c3_get_notfound_all_or_exception (cls : ModelClass) (st : RedisStore)
    (id : String) (habs : hgetallKey st (dbKey cls id) = []) :
    getModel cls st id = .error (.notFound cls.name (id ++ " not found")) ∧
    isModelNotFound (.notFound cls.name (id ++ " not found")) = true ∧
    (∀ other : ModelClass, other.name ≠ cls.name →
      (ROMError.notFound cls.name (id ++ " not found")) ≠
        (ROMError.notFound other.name (id ++ " not found"))) ∧
    (∀ (st' : RedisStore) (m : ModelInst), getModel cls st' id = .ok m →
      m.vals.map Prod.fst =
        (cls.fields.filter (fun f => !f.transient)).map FieldDesc.name) := by
  refine ⟨?_, rfl, ?_, ?_⟩
  · unfold getModel
    rw [habs]
    simp
  · intro other hne heq
    injection heq with h1 h2
    exact hne h1.symm
  · intro st' m hok
    unfold getModel at hok
    by_cases he : (hgetallKey st' (dbKey cls id)).isEmpty
    · rw [if_pos he] at hok
      cases hok
    · rw [if_neg he] at hok
      cases hmm : exMapM
          (fun f => (deserializeField st' f
              (alookup (hgetallKey st' (dbKey cls id)) f.name)).map
            (fun v => (f.name, v)))
          (cls.fields.filter (fun f => !f.transient)) with
      | error e => rw [hmm] at hok; cases hok
      | ok vals =>
        rw [hmm] at hok
        cases hok
        exact exMapM_ok_shape
          (fun f => deserializeField st' f
            (alookup (hgetallKey st' (dbKey cls id)) f.name))
          FieldDesc.name _ vals hmm

/-- Witness for `c3_get_notfound_all_or_exception` at a concrete input. -/
theorem c3_get_notfound_witness :
    hgetallKey emptyStore (dbKey forTestingCls "9") = [] ∧
      getModel forTestingCls emptyStore "9" =
        .error (.notFound "ForTesting" "9 not found") :=
  ⟨by decide,
    (c3_get_notfound_all_or_exception forTestingCls emptyStore "9" (by decide)).1⟩

/-! ## C6: scan/all over a membership set with an orphaned id -/

/-- A membership set holding ids "1" and "2" with a hash stored only for
"1": id "2" is orphaned. -/
def orphanStore : RedisStore :=
  ⟨[("fortesting", .eset ["1", "2"]),
    ("fortesting:1", .hash [("id", "1"), ("f1", "5")])]⟩

/-- C6 evaluated at the failing input: `scan` and `all` over a membership
set containing the orphaned id "2" both raise `ForTesting.NotFoundException`
instead of yielding the remaining valid item, because `cls.get` raises on
the missing hash before the orphan-warning branch can run; that branch is
dead code, as every model instance is truthy. -/
theorem c6_scan_orphan_raises :
    scanModel forTestingCls orphanStore =
      .error (.notFound "ForTesting" "2 not found") ∧
    allModel forTestingCls orphanStore =
      .error (.notFound "ForTesting" "2 not found") ∧
    getModel forTestingCls orphanStore "1" =
      .ok ⟨forTestingCls, "1",
        [("id", .scalar (.pstr "1")), ("f1", .scalar (.pint 5))]⟩ ∧
    (∀ m : ModelInst, modelTruthy m = true) :=
  ⟨by decide, by decide, by decide, fun _ => rfl⟩

/-! ## C7: delete does not remove the id from the membership set -/

/-- C7 evaluated at the failing input: after `save` and `delete` of
`ForTesting("123", 123)` (with a nested key under `fortesting:123:*`
present), the primary hash and the nested key are removed, but the
membership set still contains the id "123": `delete` runs
`srem(prefix, key)` with the primary key `fortesting:123` instead of the id
that `save` added with `sadd(prefix, id)`. -/
theorem c7_delete_leaves_membership :
    lookupKey
        (modelDelete ft123
          (setKey (modelSave ft123 emptyStore) "fortesting:123:extra"
            (.elist ["a"]))) "fortesting:123" = none ∧
    lookupKey
        (modelDelete ft123
          (setKey (modelSave ft123 emptyStore) "fortesting:123:extra"
            (.elist ["a"]))) "fortesting:123:extra" = none ∧
    smembersKey
        (modelDelete ft123
          (setKey (modelSave ft123 emptyStore) "fortesting:123:extra"
            (.elist ["a"]))) "fortesting" = ["123"] :=
  ⟨by decide, by decide, by decide⟩

/-! ## C2: update with a field set to None -/

theorem alookup_mem {α : Type} {l : List (String × α)} {k : String} {v : α}
    (h : alookup l k = some v) : (k, v) ∈ l := by
  induction l with
  | nil => cases h
  | cons p t ih =>
    by_cases hp : p.1 = k
    · rw [alookup, if_pos hp] at h
      cases h
      have hpe : p = (k, p.2) := by
        calc p = (p.1, p.2) := rfl
          _ = (k, p.2) := by rw [hp]
      rw [← hpe]
      exact List.mem_cons_self p t
    · rw [alookup, if_neg hp] at h
      exact List.mem_cons_of_mem p (ih h)

theorem selectedFields_from_changes {m : ModelInst}
    {changes : List (String × Value)} (hne : changes ≠ []) :
    ∀ fv ∈ selectedFields m changes, alookup changes fv.1.name = some fv.2 := by
  intro fv hfv
  rw [selectedFields, List.mem_filterMap] at hfv
  obtain ⟨f, hf, hsome⟩ := hfv
  rw [if_neg] at hsome
  · have hemp : changes.isEmpty = false := by
      cases changes with
      | nil => exact absurd rfl hne
      | cons a l => rfl
    rw [hemp] at hsome
    simp only [Bool.not_false, Bool.true_and] at hsome
    by_cases hno : (alookup changes f.name).isNone
    · rw [if_pos hno] at hsome
      cases hsome
    · rw [if_neg hno] at hsome
      cases hlk : alookup changes f.name with
      | none => rw [hlk] at hno; exact absurd rfl hno
      | some v =>
        rw [hlk] at hsome
        simp only [Option.orElse] at hsome
        by_cases hdef : f.hasDefault && pyFalsyIterable v
        · rw [if_pos hdef] at hsome
          cases hsome
        · rw [if_neg hdef] at hsome
          cases hsome
          exact hlk
  · intro htrans
    rw [if_pos htrans] at hsome
    cases hsome

theorem flatten_nil_of_all {γ : Type} :
    ∀ L : List (List γ), (∀ x ∈ L, x = []) → L.flatten = [] := by
  intro L
  induction L with
  | nil => intro _; rfl
  | cons x L ih =>
    intro h
    rw [List.flatten_cons, h x (List.mem_cons_self x L),
      ih (fun y hy => h y (List.mem_cons_of_mem x hy))]
    rfl

/-- With non-empty all-scalar changes, no nested save is queued. -/
theorem serializedParts_no_nested {m : ModelInst}
    {changes : List (String × Value)} (hne : changes ≠ [])
    (hscal : ∀ p ∈ changes, ∃ pv, p.2 = Value.scalar pv) :
    (serializedParts m changes).2 = [] := by
  unfold serializedParts
  apply flatten_nil_of_all
  intro x hx
  rw [List.mem_map] at hx
  obtain ⟨fs, hfs, hxeq⟩ := hx
  rw [List.mem_map] at hfs
  obtain ⟨fv, hfv, hfseq⟩ := hfs
  have hlk := selectedFields_from_changes hne fv hfv
  obtain ⟨pv, hpv⟩ := hscal (fv.1.name, fv.2) (alookup_mem hlk)
  subst hxeq
  subst hfseq
  simp only at hpv
  rw [hpv]
  rfl

/-- Every hash entry written by `_serialized_model` with non-empty all-scalar
changes is a changed field whose changed value is not `None`. -/
theorem serializedParts_dict_entries {m : ModelInst}
    {changes : List (String × Value)} (hne : changes ≠ [])
    (hscal : ∀ p ∈ changes, ∃ pv, p.2 = Value.scalar pv) :
    ∀ e ∈ (serializedParts m changes).1,
      (alookup changes e.1).isSome ∧
        alookup changes e.1 ≠ some (.scalar .pnone) := by
  intro e he
  rw [serializedParts, List.mem_filterMap] at he
  obtain ⟨fs, hfs, hde⟩ := he
  rw [List.mem_map] at hfs
  obtain ⟨fv, hfv, hfseq⟩ := hfs
  have hlk := selectedFields_from_changes hne fv hfv
  obtain ⟨pv, hpv⟩ := hscal (fv.1.name, fv.2) (alookup_mem hlk)
  simp only at hpv
  subst hfseq
  rw [hpv] at hde
  cases hpvv : serializeScalar pv with
  | none =>
    have hser : serializeField m.dbId fv.1.name (Value.scalar pv) = .raw none := by
      simp [serializeField, hpvv]
    rw [hser] at hde
    cases hde
  | some s =>
    have hser : serializeField m.dbId fv.1.name (Value.scalar pv) =
        .raw (some (String.mk s)) := by
      simp [serializeField, hpvv]
    rw [hser] at hde
    cases hde
    constructor
    · rw [hlk]
      rfl
    · rw [hlk, hpv]
      intro hc
      cases hc
      cases hpvv

theorem hgetallKey_hsetOp_self (st : RedisStore) (k fld v : String) :
    hgetallKey (hsetOp st k fld v) k = aset (hgetallKey st k) fld v := by
  simp [hsetOp, hgetallKey, lookupKey, setKey, alookup_aset_self]

/-- Folding `hset` writes whose field names all differ from `f` leaves the
hash field `f` unchanged. -/
theorem hset_fold_preserve (K f : String) :
    ∀ (entries : List (String × String)) (st : RedisStore),
      (∀ e ∈ entries, e.1 ≠ f) →
      alookup (hgetallKey
        (applyOps (entries.map (fun kv => StoreOp.hset K kv.1 kv.2)) st) K) f =
        alookup (hgetallKey st K) f := by
  intro entries
  induction entries with
  | nil => intro st _; rfl
  | cons e rest ih =>
    intro st h
    rw [List.map_cons]
    show alookup (hgetallKey
      (applyOps (rest.map (fun kv => StoreOp.hset K kv.1 kv.2))
        (hsetOp st K e.1 e.2)) K) f = _
    rw [ih (hsetOp st K e.1 e.2) (fun x hx => h x (List.mem_cons_of_mem e hx)),
      hgetallKey_hsetOp_self,
      alookup_aset_ne _ _ _ _ (fun hc => h e (List.mem_cons_self e rest) hc.symm)]

/-- C2 (amended): for non-empty scalar-valued changes, `update` never writes
a field whose change is `None` — the stored hash keeps that field's previous
value (it is not deleted, there is no `hdel`) — and it leaves every field not
named in the changes untouched. -/
theorem c2_update_none_amended (m : ModelInst) (st : RedisStore)
    (changes : List (String × Value)) (hne : changes ≠ [])
    (hscal : ∀ p ∈ changes, ∃ pv, p.2 = Value.scalar pv) :
    (∀ f, alookup changes f = some (.scalar .pnone) →
      alookup (hgetallKey (modelUpdate m changes st) m.dbId) f =
        alookup (hgetallKey st m.dbId) f) ∧
    (∀ g, alookup changes g = none →
      alookup (hgetallKey (modelUpdate m changes st) m.dbId) g =
        alookup (hgetallKey st m.dbId) g) := by
  have hops : modelUpdateOps m changes =
      (serializedParts m changes).1.map
        (fun kv => StoreOp.hset m.dbId kv.1 kv.2) := by
    unfold modelUpdateOps
    show (serializedParts m changes).2 ++
        (serializedParts m changes).1.map
          (fun kv => StoreOp.hset m.dbId kv.1 kv.2) = _
    rw [serializedParts_no_nested hne hscal]
    rfl
  constructor
  · intro f hf
    unfold modelUpdate
    rw [hops]
    apply hset_fold_preserve
    intro e he hc
    have := (serializedParts_dict_entries hne hscal e he).2
    rw [hc] at this
    exact this hf
  · intro g hg
    unfold modelUpdate
    rw [hops]
    apply hset_fold_preserve
    intro e he hc
    have := (serializedParts_dict_entries hne hscal e he).1
    rw [hc, hg] at this
    cases this

/-- The stored state for the C2 scenario: `OptTesting("1")` persisted with
`f1 = 5`. -/
def c2Store : RedisStore :=
  ⟨[("opttesting:1", .hash [("id", "1"), ("f1", "5")]),
    ("opttesting", .eset ["1"])]⟩

/-- C2 counterexample: updating the optional field `f1` to `None` does not
remove `f1` from the stored hash — there is no `hdel` — the stale value "5"
survives, and a subsequent `get` returns 5, not the default `None`. -/
theorem c2_none_update_keeps_stale :
    alookup (hgetallKey
        (modelUpdate ot1 [("f1", Value.scalar .pnone)] c2Store)
        "opttesting:1") "f1" = some "5" ∧
    ¬ (alookup (hgetallKey
        (modelUpdate ot1 [("f1", Value.scalar .pnone)] c2Store)
        "opttesting:1") "f1" = none) ∧
    getModel optTestingCls
        (modelUpdate ot1 [("f1", Value.scalar .pnone)] c2Store) "1" =
      .ok ⟨optTestingCls, "1",
        [("id", .scalar (.pstr "1")), ("f1", .scalar (.pint 5))]⟩ :=
  ⟨by decide, by decide, by decide⟩

/-- Witness for `c2_update_none_amended` at a concrete input. -/
theorem c2_update_none_amended_witness :
    alookup (hgetallKey
        (modelUpdate ot1 [("f1", Value.scalar .pnone)] c2Store) ot1.dbId)
        "f1" =
      alookup (hgetallKey c2Store ot1.dbId) "f1" := by
  refine (c2_update_none_amended ot1 c2Store [("f1", Value.scalar .pnone)]
    (by decide) ?_).1 "f1" (by decide)
  intro p hp
  rw [List.mem_singleton] at hp
  subst hp
  exact ⟨.pnone, rfl⟩

/-! ## Collections (`aio_rom/collections.py`)

`RedisCollection` holds an optional id and in-memory values; the key prefix
is the lowercased class name (`redisset`/`redislist`) and the remote key is
`{prefix}:{id}`.  `save` (lines 97–116) returns immediately when the
in-memory values are empty, raises `AttributeError` when the id is unset,
and otherwise — inside one transaction — deletes the remote key, rewrites
all serialized members (`sadd`/`rpush`) and adds the id to the membership
set; with `cascade` it additionally saves members that are models, a no-op
for the scalar element types considered here. -/

structure CollObj (α : Type) where
  isSet : Bool
  id : Option String
  values : List α
  deriving DecidableEq, Repr

def CollObj.keyPfx {α : Type} (c : CollObj α) : String :=
  if c.isSet then "redisset" else "redislist"

def collSave {α : Type} (ser : α → String) (c : CollObj α) (st : RedisStore) :
    Except ROMError RedisStore :=
  if c.values.isEmpty then .ok st
  else
    match c.id with
    | none => .error (.attrErr "id must be set")
    | some i =>
      let k := c.keyPfx ++ ":" ++ i
      let st1 := delOp st [k]
      let st2 :=
        if c.isSet then saddAllOp st1 k (c.values.map ser)
        else rpushOp st1 k (c.values.map ser)
      .ok (saddOp st2 c.keyPfx i)

/-- `RedisCollection.delete` (collections.py lines 142–152): delete the
remote key and `srem` the id from the membership set. -/
def collDelete {α : Type} (c : CollObj α) (st : RedisStore) :
    Except ROMError RedisStore :=
  match c.id with
  | none => .error (.attrErr "id must be set")
  | some i =>
    .ok (sremOp (delOp st [c.keyPfx ++ ":" ++ i]) c.keyPfx i)

/-! ## C10: saving an empty collection is a no-op -/

/-- C10: when the in-memory values are empty, `save` returns before doing
anything: the remote key is not deleted, nothing is written, the membership
set is untouched and no missing-id error is raised even when the id is
unset — the store comes back unchanged for any id, set or list alike. -/
theorem c10_empty_save_noop {α : Type} (ser : α → String) (isSet : Bool)
    (oid : Option String) (st : RedisStore) :
    collSave ser ⟨isSet, oid, []⟩ st = .ok st := rfl

/-! ## C4: collection save as a full replace -/

theorem lookupKey_setKey_self (st : RedisStore) (k : String) (e : Entry) :
    lookupKey (setKey st k e) k = some e := by
  simp [lookupKey, setKey, alookup_aset_self]

theorem lookupKey_setKey_ne (st : RedisStore) (k k' : String) (e : Entry)
    (h : k' ≠ k) : lookupKey (setKey st k e) k' = lookupKey st k' := by
  simp [lookupKey, setKey, alookup_aset_ne _ _ _ _ h]

theorem alookup_filter_out {α : Type} (ks : List String) :
    ∀ (l : List (String × α)) (k : String), k ∈ ks →
      alookup (l.filter (fun p => decide (p.1 ∉ ks))) k = none := by
  intro l
  induction l with
  | nil => intro k _; rfl
  | cons p t ih =>
    intro k hk
    by_cases hp : p.1 ∈ ks
    · rw [List.filter_cons_of_neg (by simp [hp])]
      exact ih k hk
    · rw [List.filter_cons_of_pos (by simp [hp])]
      rw [alookup, if_neg (fun hc : p.1 = k => hp (by rw [hc]; exact hk)),
        ih k hk]

theorem lookupKey_delOp_mem (st : RedisStore) (ks : List String) (k : String)
    (h : k ∈ ks) : lookupKey (delOp st ks) k = none := by
  unfold lookupKey delOp
  exact alookup_filter_out ks st.entries k h

theorem smembersKey_saddOp_self (st : RedisStore) (k m : String) :
    smembersKey (saddOp st k m) k =
      (if m ∈ smembersKey st k then smembersKey st k
       else smembersKey st k ++ [m]) := by
  simp [saddOp, smembersKey, lookupKey_setKey_self]

theorem lookupKey_saddOp_self (st : RedisStore) (k m : String) :
    lookupKey (saddOp st k m) k =
      some (.eset (if m ∈ smembersKey st k then smembersKey st k
        else smembersKey st k ++ [m])) := by
  simp [saddOp, lookupKey_setKey_self]

theorem lookupKey_saddAll_eset (k : String) :
    ∀ (ms : List String) (st : RedisStore) (s0 : List String),
      lookupKey st k = some (.eset s0) →
      ∃ s, lookupKey (saddAllOp st k ms) k = some (.eset s) := by
  intro ms
  induction ms with
  | nil => intro st s0 h; exact ⟨s0, h⟩
  | cons m ms ih =>
    intro st s0 h
    show ∃ s, lookupKey (saddAllOp (saddOp st k m) k ms) k = some (.eset s)
    exact ih (saddOp st k m) _ (lookupKey_saddOp_self st k m)

theorem mem_smembersKey_saddAll (k : String) :
    ∀ (ms : List String) (st : RedisStore) (y : String),
      y ∈ smembersKey (saddAllOp st k ms) k ↔
        y ∈ smembersKey st k ∨ y ∈ ms := by
  intro ms
  induction ms with
  | nil =>
    intro st y
    simp [saddAllOp]
  | cons m ms ih =>
    intro st y
    show y ∈ smembersKey (saddAllOp (saddOp st k m) k ms) k ↔ _
    rw [ih (saddOp st k m) y, smembersKey_saddOp_self]
    have hym : y = m → y ∈ smembersKey st k ∨ y ∈ m :: ms :=
      fun h => Or.inr (by rw [h]; exact List.mem_cons_self m ms)
    by_cases hm : m ∈ smembersKey st k
    · rw [if_pos hm]
      simp only [List.mem_cons]
      constructor
      · rintro (h | h)
        · exact Or.inl h
        · exact Or.inr (Or.inr h)
      · rintro (h | h | h)
        · exact Or.inl h
        · rw [h]; exact Or.inl hm
        · exact Or.inr h
    · rw [if_neg hm]
      simp only [List.mem_append, List.mem_singleton, List.mem_cons]
      tauto

theorem keyPfx_ne_dbKey {α : Type} (c : CollObj α) (i : String) :
    c.keyPfx ≠ c.keyPfx ++ ":" ++ i := by
  intro h
  have hlen : (c.keyPfx ++ ":" ++ i).length =
      c.keyPfx.length + 1 + i.length := by
    rw [String.length_append, String.length_append]
    rfl
  have := congrArg String.length h
  omega

/-- C4 (amended): saving a collection whose in-memory values are non-empty
(and whose id is set) deletes the remote key and rewrites it wholesale: the
resulting remote members are exactly the serialized in-memory values, so an
element no longer present in memory — in particular one just removed, as
long as the collection stayed non-empty — is no longer remotely present.
(When removal empties the collection, `save` returns without touching the
store — see `c10_empty_save_noop` — which is what refutes the unconditional
claim.) -/
theorem c4_save_full_replace {α : Type} [DecidableEq α] (ser : α → String)
    (hinj : ∀ a b, ser a = ser b → a = b) (c : CollObj α) (st : RedisStore)
    (i : String) (x : α) (hid : c.id = some i) (hne : c.values ≠ [])
    (hx : x ∉ c.values) :
    ∃ st', collSave ser c st = .ok st' ∧
      (∀ y, y ∈ collMembersKey st' (c.keyPfx ++ ":" ++ i) ↔
        y ∈ c.values.map ser) ∧
      ser x ∉ collMembersKey st' (c.keyPfx ++ ":" ++ i) := by
  have hemp : c.values.isEmpty = false := by
    cases hv : c.values with
    | nil => exact absurd hv hne
    | cons a l => rfl
  have hser_not_mem : ser x ∉ c.values.map ser := by
    intro hmem
    rw [List.mem_map] at hmem
    obtain ⟨a, ha, hae⟩ := hmem
    rw [hinj a x hae] at ha
    exact hx ha
  have hkne : c.keyPfx ≠ c.keyPfx ++ ":" ++ i := keyPfx_ne_dbKey c i
  have hkne' : c.keyPfx ++ ":" ++ i ≠ c.keyPfx := fun hc => hkne hc.symm
  have hst1k :
      lookupKey (delOp st [c.keyPfx ++ ":" ++ i]) (c.keyPfx ++ ":" ++ i) =
        none :=
    lookupKey_delOp_mem st _ _ (List.mem_singleton.mpr rfl)
  have hmembers : ∀ y,
      y ∈ collMembersKey
        (if c.isSet then
          saddAllOp (delOp st [c.keyPfx ++ ":" ++ i]) (c.keyPfx ++ ":" ++ i)
            (c.values.map ser)
         else
          rpushOp (delOp st [c.keyPfx ++ ":" ++ i]) (c.keyPfx ++ ":" ++ i)
            (c.values.map ser)) (c.keyPfx ++ ":" ++ i) ↔
        y ∈ c.values.map ser := by
    intro y
    have hbase :
        smembersKey (delOp st [c.keyPfx ++ ":" ++ i]) (c.keyPfx ++ ":" ++ i) =
          [] := by
      unfold smembersKey
      rw [hst1k]
    by_cases hs : c.isSet
    · rw [if_pos hs]
      obtain ⟨a, vs, hvv⟩ : ∃ a vs, c.values = a :: vs := by
        cases hv : c.values with
        | nil => exact absurd hv hne
        | cons a vs => exact ⟨a, vs, rfl⟩
      have hms : c.values.map ser = ser a :: vs.map ser := by
        rw [hvv]
        rfl
      have heset : ∃ s,
          lookupKey (saddAllOp (delOp st [c.keyPfx ++ ":" ++ i])
            (c.keyPfx ++ ":" ++ i) (c.values.map ser)) (c.keyPfx ++ ":" ++ i) =
            some (.eset s) := by
        rw [hms]
        show ∃ s, lookupKey (saddAllOp
          (saddOp (delOp st [c.keyPfx ++ ":" ++ i]) (c.keyPfx ++ ":" ++ i)
            (ser a))
          (c.keyPfx ++ ":" ++ i) (vs.map ser)) (c.keyPfx ++ ":" ++ i) =
          some (.eset s)
        exact lookupKey_saddAll_eset _ _ _ _ (lookupKey_saddOp_self _ _ _)
      obtain ⟨s, hsome⟩ := heset
      have hcoll : collMembersKey (saddAllOp (delOp st [c.keyPfx ++ ":" ++ i])
          (c.keyPfx ++ ":" ++ i) (c.values.map ser)) (c.keyPfx ++ ":" ++ i) =
          smembersKey (saddAllOp (delOp st [c.keyPfx ++ ":" ++ i])
            (c.keyPfx ++ ":" ++ i) (c.values.map ser)) (c.keyPfx ++ ":" ++ i) := by
        unfold collMembersKey smembersKey
        rw [hsome]
      rw [hcoll, mem_smembersKey_saddAll, hbase]
      simp
    · rw [if_neg hs]
      have hlr :
          lrangeKey (delOp st [c.keyPfx ++ ":" ++ i]) (c.keyPfx ++ ":" ++ i) =
            [] := by
        unfold lrangeKey
        rw [hst1k]
      unfold rpushOp collMembersKey
      rw [lookupKey_setKey_self, hlr]
      simp
  refine ⟨saddOp
      (if c.isSet then
        saddAllOp (delOp st [c.keyPfx ++ ":" ++ i]) (c.keyPfx ++ ":" ++ i)
          (c.values.map ser)
       else
        rpushOp (delOp st [c.keyPfx ++ ":" ++ i]) (c.keyPfx ++ ":" ++ i)
          (c.values.map ser)) c.keyPfx i, ?_, ?_, ?_⟩
  · simp [collSave, hemp, hid]
  · intro y
    unfold collMembersKey
    rw [show lookupKey (saddOp
        (if c.isSet then
          saddAllOp (delOp st [c.keyPfx ++ ":" ++ i]) (c.keyPfx ++ ":" ++ i)
            (c.values.map ser)
         else
          rpushOp (delOp st [c.keyPfx ++ ":" ++ i]) (c.keyPfx ++ ":" ++ i)
            (c.values.map ser)) c.keyPfx i) (c.keyPfx ++ ":" ++ i) = _ from
      lookupKey_setKey_ne _ _ _ _ hkne']
    exact hmembers y
  · intro hmem
    unfold collMembersKey at hmem
    rw [show lookupKey (saddOp
        (if c.isSet then
          saddAllOp (delOp st [c.keyPfx ++ ":" ++ i]) (c.keyPfx ++ ":" ++ i)
            (c.values.map ser)
         else
          rpushOp (delOp st [c.keyPfx ++ ":" ++ i]) (c.keyPfx ++ ":" ++ i)
            (c.values.map ser)) c.keyPfx i) (c.keyPfx ++ ":" ++ i) = _ from
      lookupKey_setKey_ne _ _ _ _ hkne'] at hmem
    exact hser_not_mem ((hmembers (ser x)).mp hmem)


/-- The stale remote state for the C4 counterexample: the set `{x}` was
saved earlier under id `c`. -/
def c4Store : RedisStore := ⟨[("redisset:c", .eset ["x"])]⟩

/-- C4 counterexample: removing the only element of a previously saved set
and calling `save` does nothing — `save` returns before deleting the remote
key because the in-memory values are empty — so the removed element is still
remotely present, contradicting the unconditional "always deletes then
rewrites" claim. -/
theorem c4_empty_save_keeps_stale :
    collSave (fun s => s) (⟨true, some "c", []⟩ : CollObj String) c4Store =
      .ok c4Store ∧
    "x" ∈ collMembersKey c4Store "redisset:c" :=
  ⟨rfl, by decide⟩

/-- Witness for `c4_save_full_replace` at a concrete input: the set held
`{"a", "x"}`, `"x"` was removed locally, and after `save` the remote set is
exactly `{"a"}`. -/
theorem c4_save_full_replace_witness :
    ∃ st', collSave (fun s => s) (⟨true, some "c", ["a"]⟩ : CollObj String)
        c4Store = .ok st' ∧
      (∀ y, y ∈ collMembersKey st'
          ((⟨true, some "c", ["a"]⟩ : CollObj String).keyPfx ++ ":" ++ "c") ↔
        y ∈ (["a"] : List String).map (fun s => s)) ∧
      (fun (s : String) => s) "x" ∉ collMembersKey st'
        ((⟨true, some "c", ["a"]⟩ : CollObj String).keyPfx ++ ":" ++ "c") :=
  c4_save_full_replace (fun s => s) (fun a b h => h)
    (⟨true, some "c", ["a"]⟩ : CollObj String) c4Store "c" "x" rfl
    (by decide) (by decide)

/-! ## C8: no-cascade reference isolation -/

theorem str_ne_append_colon (p i : String) : p ≠ p ++ ":" ++ i := by
  intro h
  have hlen : (p ++ ":" ++ i).length = p.length + 1 + i.length := by
    rw [String.length_append, String.length_append]
    rfl
  have := congrArg String.length h
  omega

theorem dictEntry_key {f : FieldDesc} {sv : SerVal} {e : String × String}
    (h : dictEntry f sv = some e) : e.1 = f.name := by
  cases sv with
  | raw o =>
    cases o with
    | none => cases h
    | some s => cases h; rfl
  | refObj p i rh => cases h; rfl
  | collObj isSet key items => cases h; rfl

/-- Forward characterization of field selection in a full (no-changes)
save. -/
theorem selectedFields_empty_spec {m : ModelInst} {fv : FieldDesc × Value}
    (h : fv ∈ selectedFields m []) :
    fv.1 ∈ m.cls.fields ∧ fv.1.transient = false ∧
      m.attr fv.1.name = some fv.2 := by
  rw [selectedFields, List.mem_filterMap] at h
  obtain ⟨f, hf, hsome⟩ := h
  by_cases htr : f.transient
  · rw [if_pos htr] at hsome
    cases hsome
  · rw [if_neg htr] at hsome
    simp only [List.isEmpty_nil, Bool.not_true, Bool.false_and,
      Bool.false_eq_true, if_false] at hsome
    cases hattr : (alookup ([] : List (String × Value)) f.name).orElse
        (fun _ => m.attr f.name) with
    | none => rw [hattr] at hsome; cases hsome
    | some v =>
      rw [hattr] at hsome
      have hsome' : (if (f.hasDefault && pyFalsyIterable v) = true then none
          else some (f, v)) = some fv := hsome
      by_cases hdef : f.hasDefault && pyFalsyIterable v
      · rw [if_pos hdef] at hsome'
        cases hsome'
      · rw [if_neg hdef] at hsome'
        cases hsome'
        refine ⟨hf, by simp [htr], ?_⟩
        simpa [alookup, Option.orElse] using hattr

/-- Membership of one non-transient, non-falsy field in the selection of a
full save. -/
theorem mem_selectedFields_empty {m : ModelInst} {fd : FieldDesc} {v : Value}
    (hfd : fd ∈ m.cls.fields) (htr : fd.transient = false)
    (hattr : m.attr fd.name = some v)
    (hnf : (fd.hasDefault && pyFalsyIterable v) = false) :
    (fd, v) ∈ selectedFields m [] := by
  rw [selectedFields, List.mem_filterMap]
  refine ⟨fd, hfd, ?_⟩
  rw [if_neg (by simp [htr])]
  simp only [List.isEmpty_nil, Bool.not_true, Bool.false_and,
    Bool.false_eq_true, if_false]
  have hor : (alookup ([] : List (String × Value)) fd.name).orElse
      (fun _ => m.attr fd.name) = some v := by
    simpa [alookup, Option.orElse] using hattr
  rw [hor]
  show (if (fd.hasDefault && pyFalsyIterable v) = true then none
    else some (fd, v)) = some (fd, v)
  rw [if_neg (by simp [hnf])]

/-- Shape condition: every populated field of the instance holds either a
scalar or a reference on a field whose cascade flag is off. -/
def noCascadeShape (m : ModelInst) : Bool :=
  m.cls.fields.all (fun fd =>
    match m.attr fd.name with
    | none => true
    | some (.scalar _) => true
    | some (.ref _ _ _) => !fd.cascade
    | some (.coll _ _) => false)

theorem serializedParts_empty_no_nested {m : ModelInst}
    (hshape : noCascadeShape m = true) : (serializedParts m []).2 = [] := by
  unfold serializedParts
  apply flatten_nil_of_all
  intro x hx
  rw [List.mem_map] at hx
  obtain ⟨fs, hfs, hxeq⟩ := hx
  rw [List.mem_map] at hfs
  obtain ⟨fv, hfv, hfseq⟩ := hfs
  obtain ⟨hmem, htr, hattr⟩ := selectedFields_empty_spec hfv
  have hcond := (List.all_eq_true.mp hshape) fv.1 hmem
  rw [hattr] at hcond
  subst hxeq
  subst hfseq
  cases hv : fv.2 with
  | scalar pv => rfl
  | ref rp ri rh =>
    rw [hv] at hcond
    simp only [Bool.not_eq_true'] at hcond
    show nestedSaveOps fv.1 (.refObj rp ri rh) = []
    rw [nestedSaveOps, if_neg (by simp [hcond])]
  | coll isSet items =>
    rw [hv] at hcond
    cases hcond

theorem hmset_preserve (K q : String) :
    ∀ (entries : List (String × String)) (st : RedisStore),
      (∀ e ∈ entries, e.1 ≠ q) →
      alookup (hgetallKey (hmsetOp st K entries) K) q =
        alookup (hgetallKey st K) q := by
  intro entries
  induction entries with
  | nil => intro st _; rfl
  | cons e rest ih =>
    intro st h
    show alookup (hgetallKey (hmsetOp (hsetOp st K e.1 e.2) K rest) K) q = _
    rw [ih _ (fun x hx => h x (List.mem_cons_of_mem e hx)),
      hgetallKey_hsetOp_self,
      alookup_aset_ne _ _ _ _ (fun hc => h e (List.mem_cons_self e rest) hc.symm)]

theorem hmset_sets (K q v : String) :
    ∀ (entries : List (String × String)) (st : RedisStore),
      (q, v) ∈ entries → (∀ e ∈ entries, e.1 = q → e.2 = v) →
      alookup (hgetallKey (hmsetOp st K entries) K) q = some v := by
  intro entries
  induction entries with
  | nil => intro st hmem _; cases hmem
  | cons e rest ih =>
    intro st hmem huniq
    show alookup (hgetallKey (hmsetOp (hsetOp st K e.1 e.2) K rest) K) q = _
    by_cases hrest : (q, v) ∈ rest
    · exact ih _ hrest (fun x hx => huniq x (List.mem_cons_of_mem e hx))
    · have he : e = (q, v) := by
        rw [List.mem_cons] at hmem
        rcases hmem with h | h
        · exact h.symm
        · exact absurd h hrest
      have hnone : ∀ x ∈ rest, x.1 ≠ q := by
        intro x hx hc
        have := huniq x (List.mem_cons_of_mem e hx) hc
        have hxe : x = (q, v) := by
          calc x = (x.1, x.2) := rfl
            _ = (q, v) := by rw [hc, this]
        rw [hxe] at hx
        exact hrest hx
      rw [hmset_preserve K q rest _ hnone, he, hgetallKey_hsetOp_self,
        alookup_aset_self]

theorem lookupKey_hmset_ne (K q : String) (h : q ≠ K) :
    ∀ (entries : List (String × String)) (st : RedisStore),
      lookupKey (hmsetOp st K entries) q = lookupKey st q := by
  intro entries
  induction entries with
  | nil => intro st; rfl
  | cons e rest ih =>
    intro st
    show lookupKey (hmsetOp (hsetOp st K e.1 e.2) K rest) q = _
    rw [ih]
    unfold hsetOp
    exact lookupKey_setKey_ne _ _ _ _ h

theorem lookupKey_saddOp_ne (st : RedisStore) (k m q : String) (h : q ≠ k) :
    lookupKey (saddOp st k m) q = lookupKey st q := by
  unfold saddOp
  exact lookupKey_setKey_ne _ _ _ _ h

theorem hgetallKey_saddOp_ne (st : RedisStore) (k m q : String) (h : q ≠ k) :
    hgetallKey (saddOp st k m) q = hgetallKey st q := by
  unfold hgetallKey
  rw [lookupKey_saddOp_ne st k m q h]

theorem mem_saddOp_self (st : RedisStore) (k m : String) :
    m ∈ smembersKey (saddOp st k m) k := by
  rw [smembersKey_saddOp_self]
  by_cases h : m ∈ smembersKey st k
  · rw [if_pos h]; exact h
  · rw [if_neg h]
    exact List.mem_append.mpr (Or.inr (List.mem_singleton.mpr rfl))

theorem hgetallKey_eq_nil_of_none {st : RedisStore} {k : String}
    (h : lookupKey st k = none) : hgetallKey st k = [] := by
  unfold hgetallKey
  rw [h]

/-- C8: saving a model whose reference field has `cascade = False` (and whose
other populated fields are scalars or non-cascade references) writes only
the reference's key into the parent hash and does not persist the referenced
model: the referenced key is left exactly as it was, so when nothing was
stored there a subsequent `get` of the referenced id raises the referenced
class's NotFoundException; meanwhile the parent hash entry for the field
holds the referenced id and the parent id is added to the membership set. -/
theorem c8_no_cascade_isolation (refCls : ModelClass) (m : ModelInst)
    (st : RedisStore) (fd : FieldDesc) (rid : String)
    (rhash : List (String × String))
    (h1 : fd ∈ m.cls.fields) (h2 : fd.transient = false)
    (h3 : fd.cascade = false)
    (h4 : m.attr fd.name = some (.ref refCls.keyPfx rid rhash))
    (h5 : noCascadeShape m = true)
    (h6 : (m.cls.fields.map FieldDesc.name).Nodup)
    (h7 : lookupKey st (refCls.keyPfx ++ ":" ++ rid) = none)
    (h8 : refCls.keyPfx ++ ":" ++ rid ≠ m.dbId)
    (h9 : refCls.keyPfx ++ ":" ++ rid ≠ m.cls.keyPfx) :
    getModel refCls (modelSave m st) rid =
      .error (.notFound refCls.name (rid ++ " not found")) ∧
    alookup (hgetallKey (modelSave m st) m.dbId) fd.name = some rid ∧
    m.id ∈ smembersKey (modelSave m st) m.cls.keyPfx := by
  have hsave : modelSave m st =
      saddOp (hmsetOp st m.dbId (serializedParts m []).1) m.cls.keyPfx m.id := by
    unfold modelSave modelSaveOps
    show applyOps ((serializedParts m []).2 ++
      [.hmset m.dbId (serializedParts m []).1, .sadd m.cls.keyPfx m.id]) st = _
    rw [serializedParts_empty_no_nested h5]
    rfl
  have hsel : (fd, Value.ref refCls.keyPfx rid rhash) ∈ selectedFields m [] :=
    mem_selectedFields_empty h1 h2 h4 (by simp [pyFalsyIterable])
  have hdictmem : (fd.name, rid) ∈ (serializedParts m []).1 := by
    unfold serializedParts
    rw [List.mem_filterMap]
    refine ⟨(fd, serializeField m.dbId fd.name
      (Value.ref refCls.keyPfx rid rhash)), ?_, rfl⟩
    rw [List.mem_map]
    exact ⟨(fd, Value.ref refCls.keyPfx rid rhash), hsel, rfl⟩
  have hdictuniq : ∀ e ∈ (serializedParts m []).1, e.1 = fd.name →
      e.2 = rid := by
    intro e he hek
    unfold serializedParts at he
    rw [List.mem_filterMap] at he
    obtain ⟨fs, hfs, hde⟩ := he
    rw [List.mem_map] at hfs
    obtain ⟨fv, hfv, hfseq⟩ := hfs
    obtain ⟨hmem, htr, hattr⟩ := selectedFields_empty_spec hfv
    subst hfseq
    have hkey : e.1 = fv.1.name := dictEntry_key hde
    have hfveq : fv.1 = fd :=
      List.inj_on_of_nodup_map h6 hmem h1 (by rw [← hkey, hek])
    rw [hfveq] at hattr
    rw [hattr] at h4
    have hveq : fv.2 = Value.ref refCls.keyPfx rid rhash := by
      injection h4.symm with hh
      exact hh.symm
    rw [hfveq, hveq] at hde
    cases hde
    rfl
  have hrefkey : lookupKey (modelSave m st) (refCls.keyPfx ++ ":" ++ rid) =
      none := by
    rw [hsave, lookupKey_saddOp_ne _ _ _ _ h9,
      lookupKey_hmset_ne _ _ h8, h7]
  refine ⟨?_, ?_, ?_⟩
  · unfold getModel
    have : hgetallKey (modelSave m st) (dbKey refCls rid) = [] :=
      hgetallKey_eq_nil_of_none hrefkey
    rw [this]
    simp
  · have hdb : m.dbId ≠ m.cls.keyPfx :=
      fun hc => str_ne_append_colon m.cls.keyPfx m.id hc.symm
    rw [hsave, hgetallKey_saddOp_ne _ _ _ _ hdb]
    exact hmset_sets m.dbId fd.name rid _ st hdictmem hdictuniq
  · rw [hsave]
    exact mem_saddOp_self _ _ _

/-! ### C8 witness fixtures -/

def refFld : FieldDesc :=
  ⟨"ref1", false, false, false, false, none, .reference "Other"⟩

def otherCls : ModelClass := ⟨"Other", [idField, f1Field]⟩

def parentCls : ModelClass := ⟨"Parent", [idField, f1Field, refFld]⟩

def parent1 : ModelInst :=
  ⟨parentCls, "1",
    [("id", .scalar (.pstr "1")), ("f1", .scalar (.pint 7)),
     ("ref1", .ref "other" "9" [("id", "9"), ("f1", "5")])]⟩

/-- Witness for `c8_no_cascade_isolation` at a concrete input. -/
theorem c8_no_cascade_isolation_witness :
    getModel otherCls (modelSave parent1 emptyStore) "9" =
      .error (.notFound "Other" ("9" ++ " not found")) ∧
    alookup (hgetallKey (modelSave parent1 emptyStore) parent1.dbId) "ref1" =
      some "9" ∧
    parent1.id ∈ smembersKey (modelSave parent1 emptyStore)
      parent1.cls.keyPfx :=
  c8_no_cascade_isolation otherCls parent1 emptyStore refFld "9"
    [("id", "9"), ("f1", "5")]
    (by decide) rfl rfl (by decide) (by decide) (by decide) (by decide)
    (by decide) (by decide)

/-! ## C5: optimistic locking (`aio_rom/session.py` lines 72–89)

`transaction(*watches)` issues `WATCH` on the given keys before `MULTI`, the
body queues operations, and `execute` runs them atomically at scope exit.
The store contract (spec §6, the redis `WATCH`/`MULTI`/`EXEC` primitives):
modification of a watched key between watch and execute makes `EXEC` fail
and discards every queued operation.  Modification is tracked by a version
counter per key; every write bumps the versions of the keys it touches. -/

structure WStore where
  store : RedisStore
  ver : List (String × Nat)
  deriving DecidableEq, Repr

def verOf (w : WStore) (k : String) : Nat := (alookup w.ver k).getD 0

/-- Keys written by one queued operation. -/
def opKeys : StoreOp → List String
  | .hmset k _ => [k]
  | .hset k _ _ => [k]
  | .sadd k _ => [k]
  | .saddAll k _ => [k]
  | .srem k _ => [k]
  | .rpush k _ => [k]
  | .delKeys ks => ks

def bumpVer (ver : List (String × Nat)) (k : String) : List (String × Nat) :=
  aset ver k ((alookup ver k).getD 0 + 1)

/-- Apply queued operations to a versioned store, bumping the version of
every touched key. -/
def applyOpsW (ops : List StoreOp) (w : WStore) : WStore :=
  ⟨applyOps ops w.store,
   ops.foldl (fun v op => (opKeys op).foldl bumpVer v) w.ver⟩

/-- `WATCH`/`MULTI`/`EXEC`: `snap` is the state at WATCH time, `cur` the
state at EXEC time.  If any watched key's version changed in between, EXEC
fails with `WatchError` and no queued operation takes effect; otherwise all
queued operations apply atomically. -/
def txRun (watches : List String) (snap cur : WStore) (ops : List StoreOp) :
    WStore × Except ROMError Unit :=
  if watches.all (fun k => verOf cur k == verOf snap k) then
    (applyOpsW ops cur, .ok ())
  else (cur, .error .watchErr)

/-- `Model.save(optimistic=True)`: `_serialized_model` watches the primary
key `self.db_id` (model.py lines 172–174) before the queued writes execute;
`interfere` is a concurrent writer acting between the watch and the
execute. -/
def saveOptimisticRun (m : ModelInst) (w : WStore)
    (interfere : WStore → WStore) : WStore × Except ROMError Unit :=
  txRun [m.dbId] w (interfere w) (modelSaveOps m)

/-- `Model.update(optimistic=True, **changes)` under the same machinery. -/
def updateOptimisticRun (m : ModelInst) (changes : List (String × Value))
    (w : WStore) (interfere : WStore → WStore) :
    WStore × Except ROMError Unit :=
  txRun [m.dbId] w (interfere w) (modelUpdateOps m changes)

/-- C5: whenever `save` or `update` runs with `optimistic=True`, the model's
primary key is watched before the transaction body executes, and if another
writer modifies the watched key between watch and execute, the execute fails
with the watch error and none of the queued writes take effect: the
resulting store is exactly the interferer's store. -/
theorem c5_optimistic_conflict_aborts (m : ModelInst)
    (changes : List (String × Value)) (w : WStore)
    (interfere : WStore → WStore)
    (hmod : verOf (interfere w) m.dbId ≠ verOf w m.dbId) :
    saveOptimisticRun m w interfere = (interfere w, .error .watchErr) ∧
    updateOptimisticRun m changes w interfere =
      (interfere w, .error .watchErr) ∧
    (saveOptimisticRun m w interfere).1.store = (interfere w).store := by
  have hchk : ([m.dbId].all
      (fun k => verOf (interfere w) k == verOf w k)) = false := by
    simp only [List.all_cons, List.all_nil, Bool.and_true]
    exact beq_eq_false_iff_ne.mpr hmod
  refine ⟨?_, ?_, ?_⟩
  · unfold saveOptimisticRun txRun
    rw [hchk]
    rfl
  · unfold updateOptimisticRun txRun
    rw [hchk]
    rfl
  · unfold saveOptimisticRun txRun
    rw [hchk]
    simp

/-- A concurrent writer touching exactly one key. -/
def bumpKeyW (k : String) (w : WStore) : WStore :=
  ⟨w.store, bumpVer w.ver k⟩

/-- Witness for `c5_optimistic_conflict_aborts` at a concrete input. -/
theorem c5_optimistic_conflict_witness :
    saveOptimisticRun ft123 ⟨emptyStore, []⟩ (bumpKeyW "fortesting:123") =
      (bumpKeyW "fortesting:123" ⟨emptyStore, []⟩, .error .watchErr) ∧
    updateOptimisticRun ft123 [("f1", .scalar (.pint 9))] ⟨emptyStore, []⟩
        (bumpKeyW "fortesting:123") =
      (bumpKeyW "fortesting:123" ⟨emptyStore, []⟩, .error .watchErr) := by
  have h := c5_optimistic_conflict_aborts ft123 [("f1", .scalar (.pint 9))]
    ⟨emptyStore, []⟩ (bumpKeyW "fortesting:123") (by decide)
  exact ⟨h.1, h.2.1⟩

/-! ## C9: not-loaded access on model lists

Embeds the model-aware list of `src/src/rom/attributes.py`
(`ModelCollection` lines 134–189, `RedisModelList` lines 203–238) for a
concrete element class `Foo9`, and the sibling `LazyModelList` of
`src/src/rom/fields.py` (lines 137–154).  The cache is a Python dict from
raw keys to instances; `RedisModelList.__getitem__` indexes
`self.values` — which is the list of *cached instances* — and passes the
resulting model to `_get_cached_item`, which looks it up as a cache key.
Python dict lookup compares with `==`; a model instance never equals a raw
key, and dataclass equality ignores the `id` field (`compare=False`). -/

structure Foo9 where
  id : String
  f1 : Int
  deriving DecidableEq, Repr

/-- A Python object used as a cache-dict key: a raw key or a model. -/
inductive PyObj where
  | pkey (s : String)
  | pmodel (m : Foo9)
  deriving DecidableEq, Repr

/-- Python `==` between cache-dict keys. -/
def pyObjBeq : PyObj → PyObj → Bool
  | .pkey a, .pkey b => a == b
  | .pmodel a, .pmodel b => a.f1 == b.f1
  | _, _ => false

def cacheLookup (c : List (PyObj × Foo9)) (k : PyObj) : Option Foo9 :=
  match c with
  | [] => none
  | (k', v) :: t => if pyObjBeq k' k then some v else cacheLookup t k

structure RedisModelListObj where
  key : String
  keys : List String
  cache : List (PyObj × Foo9)
  deriving DecidableEq, Repr

/-- `ModelCollection.values`: the collection of cached instances. -/
def rmlValues (o : RedisModelListObj) : List Foo9 :=
  o.cache.map (fun p => p.2)

/-- `RedisModelList._get_cached_item`: cache lookup, `KeyError` becomes
`ModelNotLoadedException`. -/
def getCachedItem (o : RedisModelListObj) (k : PyObj) : Except ROMError Foo9 :=
  match cacheLookup o.cache k with
  | some v => .ok v
  | none => .error (.notLoaded "Foo9 object was not loaded")

/-- `RedisModelList.__getitem__` for an int index: indexes the cached-values
list (out of range raises `IndexError`) and then looks the resulting model
up as a cache key. -/
def rmlGetItem (o : RedisModelListObj) (i : Nat) : Except ROMError Foo9 :=
  if h : i < (rmlValues o).length then
    getCachedItem o (.pmodel ((rmlValues o).get ⟨i, h⟩))
  else .error .indexErr

/-- `Foo9.get` on the store: the hash at `foo9:{id}` with the string `id`
and json-decoded int `f1`. -/
def getFoo9 (st : RedisStore) (k : String) : Except ROMError Foo9 :=
  if (hgetallKey st ("foo9:" ++ k)).isEmpty then
    .error (.notFound "Foo9" (k ++ " not found"))
  else
    match alookup (hgetallKey st ("foo9:" ++ k)) "id",
        alookup (hgetallKey st ("foo9:" ++ k)) "f1" with
    | some i, some s =>
      match jsonLoads s.data with
      | some (.pint n) => .ok ⟨i, n⟩
      | _ => .error (.typeErr "could not deserialize f1")
    | _, _ => .error (.typeErr "missing stored field")

/-- `ModelCollection.load`: fetch every key, filling the cache keyed by the
raw keys. -/
def rmlLoad (st : RedisStore) (o : RedisModelListObj) :
    Except ROMError RedisModelListObj :=
  (exMapM (getFoo9 st) o.keys).map
    (fun ms => ⟨o.key, o.keys, (o.keys.zip ms).map (fun p => (.pkey p.1, p.2))⟩)

/-- The sibling `LazyModelList` of `src/src/rom/fields.py`: the cache is
keyed by the raw keys and `__getitem__` looks up `self.keys[i]`. -/
structure LazyModelListObj where
  keys : List String
  cache : List (String × Foo9)
  deriving DecidableEq, Repr

def lmlGetItem (o : LazyModelListObj) (i : Nat) : Except ROMError Foo9 :=
  if h : i < o.keys.length then
    match alookup o.cache (o.keys.get ⟨i, h⟩) with
    | some v => .ok v
    | none => .error (.notLoaded "Foo9 object was not loaded")
  else .error .indexErr

def lmlLoad (st : RedisStore) (o : LazyModelListObj) :
    Except ROMError LazyModelListObj :=
  (exMapM (getFoo9 st) o.keys).map (fun ms => ⟨o.keys, o.keys.zip ms⟩)

def foo9Store : RedisStore :=
  ⟨[("foo9:1", .hash [("id", "1"), ("f1", "5")])]⟩

/-- C9 evaluated at the failing input, for a one-element non-eager model
list over key "1" whose model is stored: before the load step,
`RedisModelList[0]` raises `IndexError` (the values list is the empty cache),
not `ModelNotLoadedException`; after `load()` has resolved the member, the
same access still raises `ModelNotLoadedException`, because `__getitem__`
looks the cached *model* up as a cache key.  The sibling `LazyModelList`
shows the intended behaviour: `NotLoaded` before the load step, the member
itself afterwards. -/
theorem c9_not_loaded_access :
    rmlGetItem ⟨"my_list", ["1"], []⟩ 0 = .error .indexErr ∧
    rmlLoad foo9Store ⟨"my_list", ["1"], []⟩ =
      .ok ⟨"my_list", ["1"], [(.pkey "1", ⟨"1", 5⟩)]⟩ ∧
    rmlGetItem ⟨"my_list", ["1"], [(.pkey "1", ⟨"1", 5⟩)]⟩ 0 =
      .error (.notLoaded "Foo9 object was not loaded") ∧
    lmlGetItem ⟨["1"], []⟩ 0 =
      .error (.notLoaded "Foo9 object was not loaded") ∧
    lmlLoad foo9Store ⟨["1"], []⟩ = .ok ⟨["1"], [("1", ⟨"1", 5⟩)]⟩ ∧
    lmlGetItem ⟨["1"], [("1", ⟨"1", 5⟩)]⟩ 0 = .ok ⟨"1", 5⟩ :=
  ⟨by decide, by decide, by decide, by decide, by decide, by decide⟩

end AioRom
